import Mathlib

/-!
# Verification of the Scene-File-Parser-in-ThreeJS core

A shallow embedding, in Lean 4, of the parts of the repository's source that
the specification's claims are about:

* `MyValidationUtils` (src/parser/customClasses/02_MyCamera.js, second half of
  the file): scalar validators — `toValidFloat`, `toValidOpacity`,
  `validatePenumbra`, `validateDecay`, `validateLeftRight`,
  `validateBottomTop`, `parseBoolean`, `validateAngle`,
  `validateShadowProperty`, `validateIntensity`, `validateDistance`,
  `validateShadowMapSize`.
* `applyTransformations` (src/parser/utils/MyTransformUtils.js).
* `createPrimitive`'s texture-repeat post-pass
  (src/parser/utils/MyPrimitiveUtils.js).
* `createLight` (src/parser/utils/MyLightUtils.js).
* `MyMaterials.isValid` / `MyContents.materialsRendering`
  (src/parser/customClasses/04_MyMaterials.js, src/MyContents.js).
* `GraphParser.createNode` / `handleChild` / `createLOD`
  (src/parser/utils/MyTransformUtils.js, `GraphParser` class).

Modelling conventions used throughout:

* JavaScript numbers are modelled as exact rationals `ℚ`.  Every concrete
  input used in a theorem below is exactly representable as an IEEE-754
  double and the arithmetic performed on it by the source (additions,
  subtractions, divisions by powers of two, comparisons) is exact, so the
  rational model agrees with the double-precision execution on those inputs.
* A JavaScript value that may be `undefined`, `null` or non-numeric is
  modelled as `Option ℚ` at call sites where the source immediately feeds it
  to `parseFloat` (a `none` is any value whose `parseFloat` is `NaN`); the
  fully dynamic values fed to `parseBoolean` are modelled by the tagged type
  `JsVal`.
* Where the source can produce the special doubles `Infinity`/`-Infinity`/
  `NaN` (division by zero in the texture-repeat post-pass) we use the tagged
  numeric type `JsNum` with JavaScript's division and falsiness rules.
-/

/-! ## JavaScript dynamic values (arguments of `parseBoolean`) -/

/-- A JavaScript value as dispatched on by `typeof` in
`MyValidationUtils.parseBoolean`.  `nanNum` is the number `NaN`
(`typeof NaN === "number"`); `obj` stands for any value that is neither a
boolean, a string nor a number (objects, `null`, `undefined`, ...) beyond the
two explicit constructors `nullV` and `undef` we keep for readability. -/
inductive JsVal where
  | bool (b : Bool)
  | str (s : String)
  | num (q : ℚ)
  | nanNum
  | nullV
  | undef
  | obj
deriving DecidableEq, Repr

/-- `String.prototype.toLowerCase()`, modelled per character.  The source
only compares the result against the ASCII strings `"true"` and `"1"`, for
which the per-character ASCII lowering is the relevant behaviour. -/
def jsToLower (s : String) : String := String.mk (s.data.map Char.toLower)

/-- `MyValidationUtils.parseBoolean(value, defaultValue = false)`:
a boolean is returned as-is; a string returns whether its lower-cased form is
`"true"` or `"1"`; a number returns `value !== 0` (so `NaN !== 0` is `true`);
everything else returns the supplied default. -/
def parseBoolean (value : JsVal) (defaultValue : Bool := false) : Bool :=
  match value with
  | .bool b => b
  | .str s => ["true", "1"].contains (jsToLower s)
  | .num q => decide (q ≠ 0)
  | .nanNum => true
  | .nullV => defaultValue
  | .undef => defaultValue
  | .obj => defaultValue

/-! ## Scalar validators (`MyValidationUtils`) -/

/-- `MyValidationUtils.toValidFloat(value, defaultValue = 0)`:
`parseFloat` then `isNaN` check.  A `none` input models any value whose
`parseFloat` is `NaN`. -/
def toValidFloat (value : Option ℚ) (defaultValue : ℚ := 0) : ℚ :=
  match value with
  | none => defaultValue
  | some num => num

/-- `MyValidationUtils.toValidOpacity(value, defaultValue = 1.0)`:
`isNaN(num) ? defaultValue : Math.max(0, Math.min(num, 1))` — a numeric value
is clamped into `[0, 1]`, only a non-numeric value yields the default. -/
def toValidOpacity (value : Option ℚ) (defaultValue : ℚ := 1) : ℚ :=
  match value with
  | none => defaultValue
  | some num => max 0 (min num 1)

/-- `MyValidationUtils.validatePenumbra(value, defaultValue = 0.2)`. -/
def validatePenumbra (value : Option ℚ) (defaultValue : ℚ := 1/5) : ℚ :=
  let penumbra := toValidFloat value defaultValue
  if penumbra < 0 ∨ penumbra > 1 then defaultValue else penumbra

/-- `MyValidationUtils.validateDecay(value, defaultValue = 2)`. -/
def validateDecay (value : Option ℚ) (defaultValue : ℚ := 2) : ℚ :=
  let decay := toValidFloat value defaultValue
  if decay < 0 ∨ decay > 2 then defaultValue else decay

/-- `MyValidationUtils.validateLeftRight(left, right, defaultLeft = -5,
defaultRight = 5)`.  The two arguments have already been through
`toValidFloat` at the call site (MyCamera), so they are plain numbers. -/
def validateLeftRight (left right : ℚ) (defaultLeft : ℚ := -5)
    (defaultRight : ℚ := 5) : ℚ × ℚ :=
  if left = 0 ∨ right = 0 then
    (defaultLeft, defaultRight)
  else if (left < 0 ∧ right ≤ 0) ∨ (left > 0 ∧ right ≥ 0) then
    (-|left|, |right|)
  else
    (left, right)

/-- `MyValidationUtils.validateBottomTop(bottom, top, defaultBottom = -5,
defaultTop = 5)`. -/
def validateBottomTop (bottom top : ℚ) (defaultBottom : ℚ := -5)
    (defaultTop : ℚ := 5) : ℚ × ℚ :=
  if bottom = 0 ∨ top = 0 then
    (defaultBottom, defaultTop)
  else if (bottom < 0 ∧ top ≤ 0) ∨ (bottom > 0 ∧ top ≥ 0) then
    (-|bottom|, |top|)
  else
    (bottom, top)

/-- `MyValidationUtils.validateAngle(value, minimumAngle = 0,
maximumAngle = 90, defaultValue = 50)`: open-interval check. -/
def validateAngle (value : Option ℚ) (minimumAngle : ℚ := 0)
    (maximumAngle : ℚ := 90) (defaultValue : ℚ := 50) : ℚ :=
  let angle := toValidFloat value defaultValue
  if angle ≤ minimumAngle ∨ angle ≥ maximumAngle then defaultValue else angle

/-- `MyValidationUtils.validateShadowProperty(value, defaultValue = -5)`:
just `toValidFloat`. -/
def validateShadowProperty (value : Option ℚ) (defaultValue : ℚ := -5) : ℚ :=
  toValidFloat value defaultValue

/-- `MyValidationUtils.validateIntensity(value, defaultValue = 1)`. -/
def validateIntensity (value : Option ℚ) (defaultValue : ℚ := 1) : ℚ :=
  let intensity := toValidFloat value defaultValue
  if intensity < 0 then defaultValue else intensity

/-- `MyValidationUtils.validateDistance(value, defaultValue = 1000)`. -/
def validateDistance (value : Option ℚ) (defaultValue : ℚ := 1000) : ℚ :=
  let distance := toValidFloat value defaultValue
  if distance < 0 then defaultValue else distance

/-- `MyValidationUtils.validateShadowMapSize(value, defaultValue = 512)`:
accepted only if `Number.isInteger(value)` and positive.  The input is an
integer (`some n`) or any non-integer value (`none`). -/
def validateShadowMapSize (value : Option ℤ) (defaultValue : ℤ := 512) : ℤ :=
  match value with
  | none => defaultValue
  | some n => if n ≤ 0 then defaultValue else n

/-! ## Transforms (`applyTransformations`, src/parser/utils/MyTransformUtils.js) -/

/-- An exact 3-vector of JavaScript numbers. -/
structure Vec3Q where
  x : ℚ
  y : ℚ
  z : ℚ
deriving DecidableEq, Repr

/-- A JSON vector whose fields may be missing / non-numeric. -/
structure OVec3 where
  x : Option ℚ := none
  y : Option ℚ := none
  z : Option ℚ := none
deriving DecidableEq, Repr

/-- One entry of a node's `transforms` array: `{ type, amount }`. -/
structure TransformEntry where
  type : String
  amount : OVec3
deriving DecidableEq, Repr

/-- `THREE.MathUtils.degToRad(d) = d · π / 180`.  We represent an angle in
radians exactly by its coefficient of `π` (radians divided by `π`), so the
conversion maps `d` degrees to the coefficient `d / 180`. -/
def degToRad (d : ℚ) : ℚ := d / 180

/-- The position/rotation/scale sub-state of a `THREE.Group`, the only state
touched by `applyTransformations`.  A fresh group has position `(0,0,0)`,
rotation `(0,0,0)` and scale `(1,1,1)`.  Rotation components are radian
angles represented as coefficients of `π` (see `degToRad`). -/
structure TRS where
  position : Vec3Q := ⟨0, 0, 0⟩
  rotation : Vec3Q := ⟨0, 0, 0⟩
  scale : Vec3Q := ⟨1, 1, 1⟩
deriving DecidableEq, Repr

/-- The validated vector a `translate` entry assigns:
`group.position.set(toValidFloat(x), toValidFloat(y), toValidFloat(z))`. -/
def translateVec (a : OVec3) : Vec3Q :=
  ⟨toValidFloat a.x 0, toValidFloat a.y 0, toValidFloat a.z 0⟩

/-- The validated vector a `rotate` entry assigns:
`degToRad(validateAngle(amount.c, -360, 360, 0))` per component. -/
def rotateVec (a : OVec3) : Vec3Q :=
  ⟨degToRad (validateAngle a.x (-360) 360 0),
   degToRad (validateAngle a.y (-360) 360 0),
   degToRad (validateAngle a.z (-360) 360 0)⟩

/-- The validated vector a `scale` entry assigns:
`group.scale.set(toValidFloat(x, 1), toValidFloat(y, 1), toValidFloat(z, 1))`. -/
def scaleVec (a : OVec3) : Vec3Q :=
  ⟨toValidFloat a.x 1, toValidFloat a.y 1, toValidFloat a.z 1⟩

/-- The body of the `transforms.forEach` callback in `applyTransformations`:
a `translate` entry sets the group's position, a `rotate` entry sets its
rotation, a `scale` entry sets its scale; any other type is ignored. -/
def applyTransformStep (g : TRS) (t : TransformEntry) : TRS :=
  if t.type = "translate" then
    { g with position := translateVec t.amount }
  else if t.type = "rotate" then
    { g with rotation := rotateVec t.amount }
  else if t.type = "scale" then
    { g with scale := scaleVec t.amount }
  else
    g

/-- `applyTransformations(group, transforms)`
(src/parser/utils/MyTransformUtils.js, lines 9–46): iterates the transforms
array in order, each entry overwriting the corresponding component. -/
def applyTransformations (g : TRS) (transforms : List TransformEntry) : TRS :=
  transforms.foldl applyTransformStep g

/-- The amount of the last entry of a given type in a transforms array
(specification-side helper used to characterize `applyTransformations`). -/
def lastAmountOfType (t : String) (transforms : List TransformEntry) :
    Option OVec3 :=
  transforms.foldl (fun acc e => if e.type = t then some e.amount else acc) none

/-! ## Association-list lookup (JavaScript object property access by key) -/

/-- First-match association-list lookup, modelling `obj[key]` on a JavaScript
object represented as an ordered list of key/value pairs. -/
def lookupA {κ α : Type} [DecidableEq κ] : List (κ × α) → κ → Option α
  | [], _ => none
  | (k, v) :: rest, key => if k = key then some v else lookupA rest key

/-! ## Colors (`MyValidationUtils.parseColor`) -/

/-- A JSON color record `{r, g, b}` with possibly missing channels. -/
structure ColorRGB where
  r : Option ℚ := none
  g : Option ℚ := none
  b : Option ℚ := none
deriving DecidableEq, Repr

/-- `MyValidationUtils.parseColor(color)`: each channel is
`Math.max(0, Math.min(1, parseFloat(color?.c ?? 0) / 255))`; a missing
channel defaults to `0`. -/
def parseColorQ (color : ColorRGB) : Vec3Q :=
  ⟨max 0 (min 1 (color.r.getD 0 / 255)),
   max 0 (min 1 (color.g.getD 0 / 255)),
   max 0 (min 1 (color.b.getD 0 / 255))⟩

/-! ## Light factory (`createLight`, src/parser/utils/MyLightUtils.js) -/

/-- The fields of a light declaration read by `createLight`. -/
structure LightData where
  type : String := ""
  color : Option ColorRGB := none
  intensity : Option ℚ := none
  distance : Option ℚ := none
  decay : Option ℚ := none
  angle : Option ℚ := none
  penumbra : Option ℚ := none
  shadowleft : Option ℚ := none
  shadowright : Option ℚ := none
  shadowbottom : Option ℚ := none
  shadowtop : Option ℚ := none
  enabled : JsVal := .undef
  castshadow : JsVal := .undef
  shadowmapsize : Option ℤ := none
  position : OVec3 := {}
  target : OVec3 := {}
deriving Repr

/-- The observable state of the light group `createLight` returns: the light's
validated parameters, its shadow-camera bounds (set only for directional
lights), the common visibility/shadow/position/target configuration, and the
group's visibility flag. -/
structure LightGroupRes where
  kind : String
  color : Vec3Q
  intensity : ℚ
  distance : Option ℚ := none
  decay : Option ℚ := none
  angle : Option ℚ := none
  penumbra : Option ℚ := none
  shadowLeft : Option ℚ := none
  shadowRight : Option ℚ := none
  shadowBottom : Option ℚ := none
  shadowTop : Option ℚ := none
  visible : Bool
  castShadow : Bool
  shadowMapSize : ℤ
  position : Vec3Q
  target : Option Vec3Q := none
  name : String
  groupVisible : Bool
deriving DecidableEq, Repr

/-- `createLight(lightData, lightId)`: builds a point, spot or directional
light (with `null` for any other type), returning the light-group model
together with the number of shadow-bound correction warnings emitted by the
directional branch.  Mirrors src/parser/utils/MyLightUtils.js line by line;
the common property block after the `switch` is inlined into each branch. -/
def createLight (lightData : LightData) (lightId : String) :
    Option LightGroupRes × ℕ :=
  let color := parseColorQ (lightData.color.getD ⟨some 255, some 255, some 255⟩)
  let visible := parseBoolean lightData.enabled true
  let castShadow := parseBoolean lightData.castshadow false
  let shadowMapSize := validateShadowMapSize lightData.shadowmapsize
  let position : Vec3Q := ⟨toValidFloat lightData.position.x 0,
    toValidFloat lightData.position.y 0, toValidFloat lightData.position.z 0⟩
  let target : Vec3Q := ⟨toValidFloat lightData.target.x 0,
    toValidFloat lightData.target.y 0, toValidFloat lightData.target.z 0⟩
  if lightData.type = "pointlight" then
    (some { kind := "pointlight", color,
            intensity := validateIntensity lightData.intensity,
            distance := some (validateDistance lightData.distance),
            decay := some (validateDecay lightData.decay),
            visible, castShadow, shadowMapSize, position,
            name := lightId, groupVisible := visible }, 0)
  else if lightData.type = "spotlight" then
    (some { kind := "spotlight", color,
            intensity := validateIntensity lightData.intensity,
            distance := some (validateDistance lightData.distance),
            angle := some (degToRad (validateAngle lightData.angle 0 180 45)),
            penumbra := some (validatePenumbra lightData.penumbra),
            decay := some (validateDecay lightData.decay),
            visible, castShadow, shadowMapSize, position,
            target := some target, name := lightId, groupVisible := visible }, 0)
  else if lightData.type = "directionallight" then
    let shadowLeft0 := validateShadowProperty lightData.shadowleft (-5)
    let shadowRight0 := validateShadowProperty lightData.shadowright 5
    let shadowBottom0 := validateShadowProperty lightData.shadowbottom (-5)
    let shadowTop0 := validateShadowProperty lightData.shadowtop 5
    let shadowLeft := if shadowLeft0 > 0 then -|shadowLeft0| else shadowLeft0
    let shadowRight := if shadowRight0 < 0 then |shadowRight0| else shadowRight0
    let shadowBottom := if shadowBottom0 > 0 then -|shadowBottom0| else shadowBottom0
    let shadowTop := if shadowTop0 < 0 then |shadowTop0| else shadowTop0
    let warnings := (if shadowLeft0 > 0 then 1 else 0) +
      (if shadowRight0 < 0 then 1 else 0) +
      (if shadowBottom0 > 0 then 1 else 0) +
      (if shadowTop0 < 0 then 1 else 0)
    (some { kind := "directionallight", color,
            intensity := validateIntensity lightData.intensity,
            shadowLeft := some shadowLeft, shadowRight := some shadowRight,
            shadowBottom := some shadowBottom, shadowTop := some shadowTop,
            visible, castShadow, shadowMapSize, position,
            target := some target, name := lightId, groupVisible := visible },
     warnings)
  else
    (none, 0)

/-! ## Materials (`MyMaterials`, src/parser/customClasses/04_MyMaterials.js;
`MyContents.materialsRendering`, src/MyContents.js) -/

/-- The fields of a material declaration read by the `MyMaterials`
constructor. -/
structure MaterialDataIn where
  color : Option ColorRGB := none
  specular : Option ColorRGB := none
  emissive : Option ColorRGB := none
  shininess : Option ℚ := none
  transparent : JsVal := .undef
  opacity : Option ℚ := none
  wireframe : JsVal := .undef
  shading : JsVal := .undef
  twosided : JsVal := .undef
  textureref : Option String := none
  texlength_s : Option ℚ := none
  texlength_t : Option ℚ := none
  bumpref : Option String := none
  bumpscale : Option ℚ := none
  specularref : Option String := none
deriving Repr

/-- The state a `MyMaterials` instance holds after its constructor ran.
Texture references are modelled by the referenced id when the id is truthy
and present in the loaded-texture mapping (`getTexture`), else `none`. -/
structure MyMaterials where
  materialId : String
  color : Vec3Q
  specular : Vec3Q
  emissive : Vec3Q
  shininess : ℚ
  transparent : Bool
  opacity : ℚ
  wireframe : Bool
  shading : Bool
  twosided : Bool
  textureref : Option String
  texlength_s : ℚ
  texlength_t : ℚ
  bumpref : Option String
  bumpscale : ℚ
  specularref : Option String
deriving DecidableEq, Repr

/-- `MyMaterials.getTexture(textures, ref)`: `null` unless `ref` is truthy
and present in the loaded-texture mapping. -/
def getTexture (textures : List String) (ref : Option String) : Option String :=
  match ref with
  | none => none
  | some r => if r = "" then none else if textures.contains r then some r else none

/-- The `MyMaterials` constructor
(src/parser/customClasses/04_MyMaterials.js, lines 5–31). -/
def mkMyMaterials (materialId : String) (materialData : MaterialDataIn)
    (textures : List String) : MyMaterials :=
  { materialId
    color := parseColorQ (materialData.color.getD ⟨some 255, some 255, some 255⟩)
    specular := parseColorQ (materialData.specular.getD ⟨some 255, some 255, some 255⟩)
    emissive := parseColorQ (materialData.emissive.getD ⟨some 0, some 0, some 0⟩)
    shininess := toValidFloat materialData.shininess 30
    transparent := parseBoolean materialData.transparent
    opacity := toValidOpacity materialData.opacity 1
    wireframe := parseBoolean materialData.wireframe
    shading := parseBoolean materialData.shading
    twosided := parseBoolean materialData.twosided
    textureref := getTexture textures materialData.textureref
    texlength_s := toValidFloat materialData.texlength_s 1
    texlength_t := toValidFloat materialData.texlength_t 1
    bumpref := getTexture textures materialData.bumpref
    bumpscale := toValidFloat materialData.bumpscale 1
    specularref := getTexture textures materialData.specularref }

/-- `MyMaterials.isValid()`: `this.color && this.specular &&
this.shininess >= 0`.  `this.color` and `this.specular` are `THREE.Color`
objects produced by `parseColor` and hence always truthy, so validity is
decided by the shininess check alone. -/
def MyMaterials.isValid (m : MyMaterials) : Bool := decide (m.shininess ≥ 0)

/-- The per-entry body of the `materialsRendering` loop. -/
def materialsStep (textures : List String)
    (acc : List (String × MyMaterials) × List String)
    (entry : String × MaterialDataIn) :
    List (String × MyMaterials) × List String :=
  let materialId := entry.1
  if materialId = "" ∨ (lookupA acc.1 materialId).isSome then acc
  else
    let myMaterial := mkMyMaterials materialId entry.2 textures
    if myMaterial.isValid then
      (acc.1 ++ [(materialId, myMaterial)], acc.2 ++ [materialId])
    else acc

/-- `MyContents.materialsRendering(materialsData)`
(src/MyContents.js, lines 254–283).  Entries are processed in declaration
order; an empty (falsy) id or an id already present in `this.materials` is
skipped; a constructed `MyMaterials` failing `isValid()` is skipped *before*
its asynchronous texture resolution starts; a valid one starts its async
resolution and — after all promises settle — appears in the mapping.  The
returned pair is (final materials mapping, ids whose async resolution was
started, in order). -/
def materialsRendering (materialsData : List (String × MaterialDataIn))
    (textures : List String) (materials : List (String × MyMaterials)) :
    List (String × MyMaterials) × List String :=
  materialsData.foldl (materialsStep textures) (materials, [])

/-! ## JavaScript numbers with `Infinity` / `NaN`
(for the texture-repeat post-pass of `createPrimitive`) -/

/-- A JavaScript double as needed by the texture-repeat computation: a finite
(exact rational) value, the two infinities, or `NaN`.  The negative zero is
not distinguished from zero (no input below produces `-0`). -/
inductive JsNum where
  | num (q : ℚ)
  | inf
  | neginf
  | nan
deriving DecidableEq, Repr

/-- JavaScript division.  On finite values it is exact division except that a
zero divisor yields `±Infinity` (or `NaN` for `0 / 0`). -/
def jsDiv : JsNum → JsNum → JsNum
  | .num a, .num b =>
      if b = 0 then (if a = 0 then .nan else if 0 < a then .inf else .neginf)
      else .num (a / b)
  | .num _, .inf => .num 0
  | .num _, .neginf => .num 0
  | .inf, .num b => if 0 ≤ b then .inf else .neginf
  | .neginf, .num b => if 0 ≤ b then .neginf else .inf
  | .inf, .inf => .nan
  | .inf, .neginf => .nan
  | .neginf, .inf => .nan
  | .neginf, .neginf => .nan
  | .nan, _ => .nan
  | _, .nan => .nan

/-- JavaScript falsiness of a number: `0` and `NaN` are falsy. -/
def jsFalsy : JsNum → Bool
  | .num q => decide (q = 0)
  | .nan => true
  | _ => false

/-- The `x || 1` fallback used by the general texture scaling: returns `1`
exactly when `x` is falsy (`0` or `NaN`), otherwise `x` itself — in
particular `Infinity` is truthy and is *not* replaced. -/
def jsOrOne (x : JsNum) : JsNum := if jsFalsy x then .num 1 else x

/-! ## Vector helpers for the primitive engine -/

/-- Componentwise vector subtraction (`THREE.Vector3.sub`). -/
def vsub (a b : Vec3Q) : Vec3Q := ⟨a.x - b.x, a.y - b.y, a.z - b.z⟩

/-- Cross product (`THREE.Vector3.cross`). -/
def vcross (a b : Vec3Q) : Vec3Q :=
  ⟨a.y * b.z - a.z * b.y, a.z * b.x - a.x * b.z, a.x * b.y - a.y * b.x⟩

/-- Squared Euclidean length. -/
def vlengthSq (a : Vec3Q) : ℚ := a.x * a.x + a.y * a.y + a.z * a.z

/-- Exact square root of a non-negative rational, correct whenever the
numerator and denominator are perfect squares.  It is used only for
`THREE.Vector3.length()` inside the *unreachable* special-handling branch of
the texture-repeat post-pass, and every input at which we evaluate that
branch has a perfect-square squared length, where this model agrees exactly
with the double-precision `Math.sqrt`. -/
def ratSqrt (q : ℚ) : ℚ :=
  if q < 0 then 0 else (Nat.sqrt q.num.toNat : ℚ) / (Nat.sqrt q.den : ℚ)

/-- `THREE.Vector3.length()`. -/
def vlength (a : Vec3Q) : ℚ := ratSqrt (vlengthSq a)

/-! ## Texture-repeat post-pass of `createPrimitive`
(src/parser/utils/MyPrimitiveUtils.js, lines 14–362) -/

/-- The flag `let specialTextureHandling = false` declared at the top of
`createPrimitive` (line 19).  It is never reassigned anywhere in the
function, so the triangle/NURBS special-scaling branches guarded by it are
unreachable. -/
def specialTextureHandling : Bool := false

/-- The fields of the resolved mesh material read by the texture-repeat
post-pass: whether a color/image map is bound, and the two texture-repeat
lengths attached by `createThreeMaterialAsync` (always numbers, via
`toValidFloat(·, 1)`). -/
structure MeshMat where
  hasMap : Bool
  texlength_s : ℚ
  texlength_t : ℚ
deriving DecidableEq, Repr

/-- x-extent of the geometry's bounding box
(`boundingBox.max.x - boundingBox.min.x` after `computeBoundingBox`).
The geometries reaching the post-pass are never empty. -/
def bboxExtentX (positions : List Vec3Q) : ℚ :=
  match positions with
  | [] => 0
  | p :: ps =>
    (ps.foldl (fun acc q => max acc q.x) p.x) -
      (ps.foldl (fun acc q => min acc q.x) p.x)

/-- y-extent of the geometry's bounding box. -/
def bboxExtentY (positions : List Vec3Q) : ℚ :=
  match positions with
  | [] => 0
  | p :: ps =>
    (ps.foldl (fun acc q => max acc q.y) p.y) -
      (ps.foldl (fun acc q => min acc q.y) p.y)

/-- The repeat pair the *special* triangle branch would assign
(lines 316–330): analytic triangle area over the texture lengths, from the
first three vertices of the position attribute. -/
def specialTriangleRepeat (positions : List Vec3Q) (m : MeshMat) :
    JsNum × JsNum :=
  let v1 := positions.getD 0 ⟨0, 0, 0⟩
  let v2 := positions.getD 1 ⟨0, 0, 0⟩
  let v3 := positions.getD 2 ⟨0, 0, 0⟩
  let edge1 := vsub v2 v1
  let edge2 := vsub v3 v1
  let triangleArea := vlength (vcross edge1 edge2) / 2
  (jsDiv (.num triangleArea) (.num m.texlength_s),
   jsDiv (.num triangleArea) (.num m.texlength_t))

/-- The repeat pair the *special* NURBS branch would assign (lines 331–337):
`(parts_u, parts_v)` re-validated from the primitive data, over the texture
lengths. -/
def specialNurbsRepeat (parts_u parts_v : Option ℚ) (m : MeshMat) :
    JsNum × JsNum :=
  (jsDiv (.num (toValidFloat parts_u 10)) (.num m.texlength_s),
   jsDiv (.num (toValidFloat parts_v 10)) (.num m.texlength_t))

/-- The repeat pair the general branch assigns (lines 338–352): bounding-box
extents over the texture lengths, each with the `|| 1` falsy fallback. -/
def generalRepeat (positions : List Vec3Q) (m : MeshMat) : JsNum × JsNum :=
  (jsOrOne (jsDiv (.num (bboxExtentX positions)) (.num m.texlength_s)),
   jsOrOne (jsDiv (.num (bboxExtentY positions)) (.num m.texlength_t)))

/-- The texture-repeat post-pass of `createPrimitive` (lines 313–355): runs
only when the mesh material has a bound map; dispatches on
`specialTextureHandling` and the primitive type; returns the `repeat` pair
assigned to the map, or `none` when no assignment happens. -/
def texRepeatPostPass (ptype : String) (positions : List Vec3Q)
    (parts_u parts_v : Option ℚ) (meshMaterial : MeshMat) :
    Option (JsNum × JsNum) :=
  if meshMaterial.hasMap then
    if specialTextureHandling then
      if ptype = "triangle" then
        some (specialTriangleRepeat positions meshMaterial)
      else if ptype = "nurbs" then
        some (specialNurbsRepeat parts_u parts_v meshMaterial)
      else none
    else
      some (generalRepeat positions meshMaterial)
  else none

/-! ## Exact geometry builders (rectangle and triangle)

`createPrimitive` builds the vertex buffers of seven kinds.  The rectangle
and triangle have exactly rational vertex positions, which we reproduce
below; the theorems about the remaining kinds (whose vertices involve
trigonometric or NURBS evaluation) are stated over the post-pass with the
position list universally quantified. -/

/-- The fields of a primitive declaration used by the kinds modelled here. -/
structure PrimitiveData where
  type : String := ""
  xy1 : OVec3 := {}
  xy2 : OVec3 := {}
  xyz1 : OVec3 := {}
  xyz2 : OVec3 := {}
  xyz3 : OVec3 := {}
  parts_u : Option ℚ := none
  parts_v : Option ℚ := none
deriving Repr

/-- Vertex positions of the rectangle case (lines 32–53):
`THREE.PlaneGeometry(rectWidth, rectHeight)` spans
`[-w/2, w/2] × [-h/2, h/2]` at `z = 0` and is then translated by the corner
midpoint. -/
def rectangleGeometry (xy1 xy2 : OVec3) : List Vec3Q :=
  let x1 := toValidFloat xy1.x (-(1/2))
  let y1 := toValidFloat xy1.y (-(1/2))
  let x2 := toValidFloat xy2.x (1/2)
  let y2 := toValidFloat xy2.y (1/2)
  let rectWidth := |x2 - x1|
  let rectHeight := |y2 - y1|
  let rectOffsetX := (x1 + x2) / 2
  let rectOffsetY := (y1 + y2) / 2
  [⟨-rectWidth / 2 + rectOffsetX, rectHeight / 2 + rectOffsetY, 0⟩,
   ⟨rectWidth / 2 + rectOffsetX, rectHeight / 2 + rectOffsetY, 0⟩,
   ⟨-rectWidth / 2 + rectOffsetX, -rectHeight / 2 + rectOffsetY, 0⟩,
   ⟨rectWidth / 2 + rectOffsetX, -rectHeight / 2 + rectOffsetY, 0⟩]

/-- Vertex positions of the triangle case (lines 55–95): the three validated
vertices, in order. -/
def triangleGeometry (xyz1 xyz2 xyz3 : OVec3) : List Vec3Q :=
  [⟨toValidFloat xyz1.x 0, toValidFloat xyz1.y 0, toValidFloat xyz1.z 0⟩,
   ⟨toValidFloat xyz2.x 1, toValidFloat xyz2.y 0, toValidFloat xyz2.z 0⟩,
   ⟨toValidFloat xyz3.x (1/2), toValidFloat xyz3.y 1, toValidFloat xyz3.z 0⟩]

/-- The `repeat` pair `createPrimitive` assigns for the kinds modelled
exactly (rectangle, triangle, polygon).  A polygon returns its mesh *before*
the post-pass (early `return` at line 284), so no repeat assignment ever
happens for it; `material = none` models the inherited-material-absent case,
in which `createPrimitive` clones `defaultMaterial`, which has no map, so the
post-pass's `if (meshMaterial.map)` guard fails. -/
def createPrimitiveRepeat (p : PrimitiveData) (material : Option MeshMat) :
    Option (JsNum × JsNum) :=
  if p.type = "polygon" then none
  else
    let positions :=
      if p.type = "rectangle" then rectangleGeometry p.xy1 p.xy2
      else if p.type = "triangle" then triangleGeometry p.xyz1 p.xyz2 p.xyz3
      else []
    match material with
    | some m => texRepeatPostPass p.type positions p.parts_u p.parts_v m
    | none => none

/-! ## Graph parser (`GraphParser`, src/parser/utils/MyTransformUtils.js)

The embedding of `GraphParser.createNode` / `handleChild` / `createLOD`.

Modelling conventions for this section:

* THREE.js object identity (needed for the reference-equality claims) is
  modelled by tagging every allocated object (`THREE.Group`, `THREE.LOD`,
  mesh, light group) with a fresh natural number `oid` drawn from an
  allocation counter in the parser state.
* A material is identified by its UUID; we model material identity as a
  natural number.  The source builds the cache key as the string
  `` `${nodeId}_${materialUUID}` `` (with `'null'` for a null material);
  generated THREE UUIDs never contain an underscore and sit in tail
  position, so that string determines and is determined by the pair
  `(nodeId, material identity)`, which we use as the key directly.
* `this.materials` is passed to the parser by reference and read through
  `materialref` resolution.  `createPrimitive` can insert generated
  default-material ids into it; those insertions affect neither the cache
  keys nor the allocation of groups, and none of the claims below touches
  them, so the materials mapping is modelled as a fixed parameter.
* `createPrimitive` and `createLight` always produce a mesh / light group
  for the child types `handleChild` dispatches to them (their internals are
  modelled separately above); here they appear as leaf allocations.
* The unbounded recursion of `createNode` is modelled with a fuel
  parameter: `none` means the recursion exceeded the fuel (the real program
  is still recursing), `some (res, st)` is a finished call with the
  null-or-group result `res` and the updated parser state. -/

/-- One entry of a `lodNodes` array: `{nodeId, mindist}`.  A `none`
`mindist` models any value with `typeof mindist !== "number"`. -/
structure LodEntry where
  nodeId : Option String := none
  mindist : Option ℚ := none
deriving Repr

mutual
/-- The fields of a node / child / LOD record in the flat `graphData` table
read by the parser: the child `type` tag, a `noderef`'s target, the
transforms array, `materialref?.materialId`, the two shadow flags, the
`children` object and a LOD record's `lodNodes` array. -/
inductive NodeData where
  | mk (type : String) (nodeId : Option String)
      (transforms : Option (List TransformEntry))
      (materialId : Option String)
      (castshadow : JsVal) (receiveshadow : JsVal)
      (children : Option NodeChildren)
      (lodNodes : Option (List LodEntry))

/-- A node's `children` object: the direct entries (all keys except the two
special ones, in insertion order) plus the `nodesList` / `lodsList` arrays
(`none` models an absent or non-array value, rejected by
`Array.isArray`). -/
inductive NodeChildren where
  | mk (direct : List (String × NodeData))
      (nodesList : Option (List String))
      (lodsList : Option (List String))
end

/-- Child/node record field: the `type` tag. -/
def NodeData.type : NodeData → String
  | .mk t _ _ _ _ _ _ _ => t

/-- Child/node record field: a `noderef`'s target node id. -/
def NodeData.nodeId : NodeData → Option String
  | .mk _ n _ _ _ _ _ _ => n

/-- Child/node record field: the transforms array. -/
def NodeData.transforms : NodeData → Option (List TransformEntry)
  | .mk _ _ ts _ _ _ _ _ => ts

/-- Child/node record field: `materialref?.materialId`. -/
def NodeData.materialId : NodeData → Option String
  | .mk _ _ _ m _ _ _ _ => m

/-- Child/node record field: `castshadow`. -/
def NodeData.castshadow : NodeData → JsVal
  | .mk _ _ _ _ c _ _ _ => c

/-- Child/node record field: `receiveshadow`. -/
def NodeData.receiveshadow : NodeData → JsVal
  | .mk _ _ _ _ _ r _ _ => r

/-- Child/node record field: the `children` object. -/
def NodeData.children : NodeData → Option NodeChildren
  | .mk _ _ _ _ _ _ ch _ => ch

/-- Child/node record field: a LOD record's `lodNodes` array. -/
def NodeData.lodNodes : NodeData → Option (List LodEntry)
  | .mk _ _ _ _ _ _ _ ln => ln

/-- The spread `{ ...childData, nodeId: childId }` performed on direct
children whose `nodeId` is falsy. -/
def NodeData.withNodeId : NodeData → String → NodeData
  | .mk t _ ts m c r ch ln, nid => .mk t (some nid) ts m c r ch ln

/-- The `children` object's direct entries. -/
def NodeChildren.direct : NodeChildren → List (String × NodeData)
  | .mk d _ _ => d

/-- The `children` object's `nodesList` array. -/
def NodeChildren.nodesList : NodeChildren → Option (List String)
  | .mk _ n _ => n

/-- The `children` object's `lodsList` array. -/
def NodeChildren.lodsList : NodeChildren → Option (List String)
  | .mk _ _ l => l

/-- JavaScript falsiness of an optional string (`!s` is `true` for a
missing value and for the empty string). -/
def jsFalsyStr : Option String → Bool
  | none => true
  | some s => s = ""

/-- The graph context: the flat `graphData` node table and the parser's
materials mapping (material id → material identity). -/
structure Ctx where
  graph : List (String × NodeData)
  mats : List (String × ℕ)

/-- A cache key of `processedNodes` / `nodes`: the pair
`(nodeId, parent-material identity)` (see the section comment on why the
source's concatenated string key is equivalent). -/
abbrev CacheKey := String × Option ℕ

/-- The renderable objects the parser builds and attaches.  `group` is a
`THREE.Group` built by `createNode` (with the position/rotation/scale set by
`applyTransformations`, the resolved material stored in `userData.material`,
the two shadow flags, and the attached children in order); `lodObj` is a
`THREE.LOD` with its `(level, minDistance)` pairs; `mesh` is a primitive
mesh from `createPrimitive` (`material = none` models the freshly cloned
default material used when no material was inherited); `lightGroup` is the
group returned by `createLight`. -/
inductive GObj where
  | group (oid : ℕ) (trs : TRS) (material : Option ℕ)
      (castShadow receiveShadow : Bool) (children : List GObj)
  | lodObj (oid : ℕ) (trs : TRS) (levels : List (GObj × ℚ))
  | mesh (oid : ℕ) (primType : String) (material : Option ℕ)
      (castShadow receiveShadow : Bool)
  | lightGroup (oid : ℕ) (lightType : String)

/-- The allocation identity of an object (its root, for trees). -/
def GObj.oid : GObj → ℕ
  | .group o _ _ _ _ _ => o
  | .lodObj o _ _ => o
  | .mesh o _ _ _ _ => o
  | .lightGroup o _ => o

mutual
/-- `referencedNode.clone(true)`: a deep clone.  Every object in the copied
tree is a fresh allocation, modelled by renumbering every `oid` from the
given counter; meshes keep their material reference (THREE mesh cloning
shares the material object). -/
def cloneObj : GObj → ℕ → GObj × ℕ
  | .group _ trs m c r children, ctr =>
      let res := cloneList children (ctr + 1)
      (.group ctr trs m c r res.1, res.2)
  | .lodObj _ trs levels, ctr =>
      let res := cloneLevels levels (ctr + 1)
      (.lodObj ctr trs res.1, res.2)
  | .mesh _ p m c r, ctr => (.mesh ctr p m c r, ctr + 1)
  | .lightGroup _ t, ctr => (.lightGroup ctr t, ctr + 1)

/-- Clones a child list, threading the allocation counter. -/
def cloneList : List GObj → ℕ → List GObj × ℕ
  | [], ctr => ([], ctr)
  | g :: gs, ctr =>
      let r1 := cloneObj g ctr
      let r2 := cloneList gs r1.2
      (r1.1 :: r2.1, r2.2)

/-- Clones a LOD level list, threading the allocation counter. -/
def cloneLevels : List (GObj × ℚ) → ℕ → List (GObj × ℚ) × ℕ
  | [], ctr => ([], ctr)
  | (g, d) :: gs, ctr =>
      let r1 := cloneObj g ctr
      let r2 := cloneLevels gs r1.2
      ((r1.1, d) :: r2.1, r2.2)
end

mutual
/-- `applyMaterialToNode(node, material, parentCastShadow,
parentReceiveShadow)` (src MyMaterialUtils): traverses the tree and, on
every mesh, overwrites the material and ORs the shadow flags.  Identities
(`oid`s) are untouched. -/
def applyMaterialToNode (node : GObj) (material : ℕ) (pc pr : Bool) : GObj :=
  match node with
  | .group o trs m c r children =>
      .group o trs m c r (applyMaterialToList children material pc pr)
  | .lodObj o trs levels =>
      .lodObj o trs (applyMaterialToLevels levels material pc pr)
  | .mesh o p _ c r => .mesh o p (some material) (pc || c) (pr || r)
  | .lightGroup o t => .lightGroup o t

/-- `applyMaterialToNode` over a child list. -/
def applyMaterialToList (l : List GObj) (material : ℕ) (pc pr : Bool) :
    List GObj :=
  match l with
  | [] => []
  | g :: gs =>
      applyMaterialToNode g material pc pr :: applyMaterialToList gs material pc pr

/-- `applyMaterialToNode` over a LOD level list. -/
def applyMaterialToLevels (l : List (GObj × ℚ)) (material : ℕ) (pc pr : Bool) :
    List (GObj × ℚ) :=
  match l with
  | [] => []
  | (g, d) :: gs =>
      (applyMaterialToNode g material pc pr, d) ::
        applyMaterialToLevels gs material pc pr
end

/-- The parser's mutable state: the `processedNodes` key set, the `nodes`
cache (most recent write first, as `lookupA` takes the first match, matching
the JavaScript map overwrite semantics), and the allocation counter for
object identities. -/
structure PState where
  processed : List CacheKey
  nodes : List (CacheKey × GObj)
  ctr : ℕ

/-- The empty parser state of a fresh `GraphParser`. -/
def PState.empty : PState := ⟨[], [], 0⟩

/-- The result type of a `createNode` call: `none` is fuel exhaustion (the
real recursion has not returned), `some (res, st)` a finished call. -/
abbrev NodeRes := Option (Option GObj × PState)

/-- The type of the recursive `createNode` reference threaded through
`handleChild` / `createLOD` (context already applied). -/
abbrev RecFn := String → Option ℕ → Bool → Bool → PState → NodeRes

/-- The `lodNodes` loop of `createLOD` (lines 288–309): entries with a falsy
`nodeId` or a non-numeric `mindist` are skipped with a warning; a level
whose child could not be created is skipped; otherwise the child returned by
`createNode` is added *as is* (no clone) with its `mindist`. -/
def foldLodEntries (recm : String → PState → NodeRes) :
    List LodEntry → List (GObj × ℚ) → PState →
    Option (List (GObj × ℚ) × PState)
  | [], acc, st => some (acc, st)
  | e :: rest, acc, st =>
      match e.nodeId, e.mindist with
      | some nid, some d =>
          if nid = "" then foldLodEntries recm rest acc st
          else
            match recm nid st with
            | none => none
            | some (some child, st') =>
                foldLodEntries recm rest (acc ++ [(child, d)]) st'
            | some (none, st') => foldLodEntries recm rest acc st'
      | _, _ => foldLodEntries recm rest acc st

/-- `GraphParser.createLOD(graphData, lodData, parentMaterial,
parentCastShadow, parentReceiveShadow)` (lines 274–312): `null` unless
`lodData?.lodNodes` is present; otherwise a fresh `THREE.LOD` with the
transforms applied and the levels added by `foldLodEntries`. -/
def createLODF (rec : RecFn) (parentMaterial : Option ℕ) (pc pr : Bool)
    (lodData : Option NodeData) (st : PState) : NodeRes :=
  match lodData with
  | none => some (none, st)
  | some ld =>
      match ld.lodNodes with
      | none => some (none, st)
      | some entries =>
          let lodOid := st.ctr
          let st1 : PState := { st with ctr := st.ctr + 1 }
          let trs := match ld.transforms with
            | some ts => applyTransformations {} ts
            | none => {}
          match foldLodEntries (fun nid s => rec nid parentMaterial pc pr s)
              entries [] st1 with
          | none => none
          | some (levels, st2) => some (some (.lodObj lodOid trs levels), st2)

/-- The seven primitive type tags `handleChild` dispatches to
`createPrimitive`. -/
def primTypes : List String :=
  ["rectangle", "triangle", "box", "cylinder", "sphere", "nurbs", "polygon"]

/-- The three light type tags `handleChild` dispatches to `createLight`. -/
def lightTypes : List String := ["pointlight", "spotlight", "directionallight"]

/-- `GraphParser.handleChild(group, childData, graphData, parentMaterial,
parentCastShadow, parentReceiveShadow)` (lines 326–415), returning the list
of objects added to the group (empty on a skip) and the updated state:

* `"lod"` — `createLOD` on the child data itself; added if non-null.
* `"noderef"` — a missing/falsy `nodeId` warns and returns; otherwise the
  referenced node is retrieved or created through `createNode`, then a deep
  clone of it is attached (never the cached instance), with the parent
  material re-applied across the clone when one is inherited.
* a primitive type — `createPrimitive` builds a fresh mesh; its shadow
  flags are ORed with the parent's.
* a light type — `createLight` builds a fresh light group.
* anything else — warn, nothing attached. -/
def handleChildF (rec : RecFn) (parentMaterial : Option ℕ) (pc pr : Bool)
    (childData : NodeData) (st : PState) : Option (List GObj × PState) :=
  let t := childData.type
  if t = "lod" then
    match createLODF rec parentMaterial pc pr (some childData) st with
    | none => none
    | some (some l, st') => some ([l], st')
    | some (none, st') => some ([], st')
  else if t = "noderef" then
    if jsFalsyStr childData.nodeId then some ([], st)
    else
      match rec (childData.nodeId.getD "") parentMaterial pc pr st with
      | none => none
      | some (none, st') => some ([], st')
      | some (some referencedNode, st') =>
          let c1 := cloneObj referencedNode st'.ctr
          let clonedNode := match parentMaterial with
            | some m => applyMaterialToNode c1.1 m pc pr
            | none => c1.1
          some ([clonedNode], { st' with ctr := c1.2 })
  else if t ∈ primTypes then
    some ([.mesh st.ctr t parentMaterial pc pr], { st with ctr := st.ctr + 1 })
  else if t ∈ lightTypes then
    some ([.lightGroup st.ctr t], { st with ctr := st.ctr + 1 })
  else
    some ([], st)

/-- Folds `handleChild` over a list of child records, accumulating the
attached objects in order. -/
def foldHandleChildren (hc : NodeData → PState → Option (List GObj × PState)) :
    List NodeData → List GObj → PState → Option (List GObj × PState)
  | [], acc, st => some (acc, st)
  | cd :: rest, acc, st =>
      match hc cd st with
      | none => none
      | some (ks, st') => foldHandleChildren hc rest (acc ++ ks) st'

/-- The `lodsList` loop of `createNode` (lines 242–255): each id is looked
up in the graph table and handed to `createLOD`; the LOD is added if
non-null. -/
def foldLodsList (cl : Option NodeData → PState → NodeRes)
    (graph : List (String × NodeData)) :
    List String → List GObj → PState → Option (List GObj × PState)
  | [], acc, st => some (acc, st)
  | lid :: rest, acc, st =>
      match cl (lookupA graph lid) st with
      | none => none
      | some (some l, st') => foldLodsList cl graph rest (acc ++ [l]) st'
      | some (none, st') => foldLodsList cl graph rest acc st'

/-- The implicit noderef record `{ type: "noderef", nodeId: childNodeId }`
built for each `nodesList` entry. -/
def mkNoderefData (nid : String) : NodeData :=
  .mk "noderef" (some nid) none none .undef .undef none none

/-- The childId injection performed on direct children:
`if (!childData.nodeId) childData = { ...childData, nodeId: childId }`. -/
def prepareDirectChild (e : String × NodeData) : NodeData :=
  if jsFalsyStr (e.2).nodeId then (e.2).withNodeId e.1 else e.2

/-- `GraphParser.createNode(graphData, nodeId, parentMaterial,
parentCastShadow, parentReceiveShadow)` (lines 115–263), with fuel:

1. cache check on the key `(nodeId, parentMaterial)` — a hit returns the
   cached object unchanged (`this.nodes[cacheKey]`);
2. missing node data — warn, return `null`;
3. a fresh `THREE.Group` is allocated, its transforms applied, the material
   resolved (`materialref` overrides, `this.materials[id] || parent`), the
   shadow flags ORed with the parent's;
4. children expansion in order: direct children (with the childId
   injection), `nodesList` entries as implicit noderefs, `lodsList` entries
   as LOD groups;
5. only then is the cache entry for the key written, and the group
   returned. -/
def createNode : ℕ → Ctx → String → Option ℕ → Bool → Bool → PState → NodeRes
  | 0, _, _, _, _, _, _ => none
  | fuel + 1, ctx, nodeId, parentMaterial, parentCastShadow,
      parentReceiveShadow, st =>
    let key : CacheKey := (nodeId, parentMaterial)
    if key ∈ st.processed then
      some (lookupA st.nodes key, st)
    else
      match lookupA ctx.graph nodeId with
      | none => some (none, st)
      | some nodeData =>
        let gOid := st.ctr
        let st1 : PState := { st with ctr := st.ctr + 1 }
        let trs := match nodeData.transforms with
          | some ts => applyTransformations {} ts
          | none => {}
        let nodeMaterial := match nodeData.materialId with
          | some mid =>
              if mid = "" then parentMaterial
              else
                match lookupA ctx.mats mid with
                | some m => some m
                | none => parentMaterial
          | none => parentMaterial
        let nodeCastShadow := parseBoolean (.bool parentCastShadow) ||
          parseBoolean nodeData.castshadow
        let nodeReceiveShadow := parseBoolean (.bool parentReceiveShadow) ||
          parseBoolean nodeData.receiveshadow
        let hc := handleChildF (createNode fuel ctx) nodeMaterial
          nodeCastShadow nodeReceiveShadow
        let kidsRes :=
          match nodeData.children with
          | none => some (([] : List GObj), st1)
          | some ch =>
              match foldHandleChildren hc (ch.direct.map prepareDirectChild)
                  [] st1 with
              | none => none
              | some (kids1, st2) =>
                  match foldHandleChildren hc
                      ((ch.nodesList.getD []).map mkNoderefData) kids1 st2 with
                  | none => none
                  | some (kids2, st3) =>
                      foldLodsList
                        (createLODF (createNode fuel ctx) nodeMaterial
                          nodeCastShadow nodeReceiveShadow)
                        ctx.graph (ch.lodsList.getD []) kids2 st3
        match kidsRes with
        | none => none
        | some (kids, st2) =>
            let grp := GObj.group gOid trs nodeMaterial nodeCastShadow
              nodeReceiveShadow kids
            some (some grp,
              { st2 with
                processed := key :: st2.processed,
                nodes := (key, grp) :: st2.nodes })

/-! ## Specification-side notions for the graph parser -/

/-- The change a finished parser computation makes to the state: the cache
grows by a block `new` of entries prepended to `nodes` (and their keys to
`processed`), the allocation counter is monotone, every newly cached group
was allocated during the computation (its identity lies in
`[st.ctr, st'.ctr)`), and the new groups are pairwise distinct objects. -/
def StepsNew (st st' : PState) (new : List (CacheKey × GObj)) : Prop :=
  st'.nodes = new ++ st.nodes ∧
  st'.processed = new.map Prod.fst ++ st.processed ∧
  st.ctr ≤ st'.ctr ∧
  (∀ e ∈ new, st.ctr ≤ (e.2).oid ∧ (e.2).oid < st'.ctr) ∧
  (new.map (fun e => (e.2).oid)).Nodup

/-- Well-formedness of a parser state: `processedNodes` and `nodes` are
written together (same keys), every cached object was allocated below the
counter, and distinct cache entries hold distinct objects. -/
def PState.WF (st : PState) : Prop :=
  st.processed = st.nodes.map Prod.fst ∧
  (∀ e ∈ st.nodes, (e.2).oid < st.ctr) ∧
  (st.nodes.map (fun e => (e.2).oid)).Nodup

/-- The target ids of the `lodNodes` entries that `createLOD` actually
recurses into (falsy ids and non-numeric distances are skipped). -/
def lodEntryTargets (entries : List LodEntry) : List String :=
  entries.filterMap fun e =>
    match e.nodeId, e.mindist with
    | some nid, some _ => if nid = "" then none else some nid
    | _, _ => none

/-- The node ids a single child record makes `handleChild` recurse into:
a non-falsy `noderef` target, or a `lod` child's valid level ids. -/
def childTargets (cd : NodeData) : List String :=
  if cd.type = "lod" then
    match cd.lodNodes with
    | some es => lodEntryTargets es
    | none => []
  else if cd.type = "noderef" then
    match cd.nodeId with
    | some nid => if nid = "" then [] else [nid]
    | none => []
  else []

/-- The target ids a (possibly missing) LOD record makes `createLOD`
recurse into. -/
def lodDataTargets (ld : Option NodeData) : List String :=
  match ld with
  | none => []
  | some l =>
      match l.lodNodes with
      | some es => lodEntryTargets es
      | none => []

/-- The node ids `createNode` on `nodeId` recurses into (its out-edges in
the node-reference relation): targets of the prepared direct children, the
non-falsy `nodesList` entries, and the valid level ids of each `lodsList`
record. -/
def edgeTargets (graph : List (String × NodeData)) (nodeId : String) :
    List String :=
  match lookupA graph nodeId with
  | none => []
  | some nd =>
      match nd.children with
      | none => []
      | some ch =>
          ((ch.direct.map prepareDirectChild).map childTargets).flatten ++
            (ch.nodesList.getD []).filter (fun nid => nid ≠ "") ++
            ((ch.lodsList.getD []).map fun lid =>
              lodDataTargets (lookupA graph lid)).flatten

/-- The object the `noderef` branch of `handleChild` attaches: the deep
clone of the referenced node, with the parent material re-applied across it
when one is inherited. -/
def clonedAttachment (pm : Option ℕ) (pc pr : Bool) (g : GObj) (ctr : ℕ) :
    GObj :=
  match pm with
  | some mm => applyMaterialToNode (cloneObj g ctr).1 mm pc pr
  | none => (cloneObj g ctr).1

/-- The invariant under which a reference cycle starves the parser: no node
of the cycle set `C` has yet been cached under any parent-material key. -/
def InvC (C : List String) (st : PState) : Prop :=
  ∀ v ∈ C, ∀ m : Option ℕ, ((v, m) : CacheKey) ∉ st.processed

/-! ## Theorems -/

/-- Helper: lookup distributes over append (first list takes precedence). -/
theorem lookupA_append {κ α : Type} [DecidableEq κ] (l1 l2 : List (κ × α))
    (key : κ) :
    lookupA (l1 ++ l2) key = ((lookupA l1 key).map some).getD (lookupA l2 key) := by
  induction l1 with
  | nil => rfl
  | cons e rest ih =>
    obtain ⟨k, v⟩ := e
    by_cases h : k = key <;> simp [lookupA, h, ih]

/-! ### C4 — out-of-range policy of opacity / penumbra / decay validators -/

/-- C4, counterexample.  The claim states `toValidOpacity(v, d) = d` whenever
`v < 0` or `v > 1`; but the source clamps numeric values
(`Math.max(0, Math.min(num, 1))`), so `toValidOpacity(-1, 1)` is `0`, the
nearest bound, not the default `1`. -/
theorem toValidOpacity_defaults_claim_false :
    toValidOpacity (some (-1)) 1 = 0 ∧ (0 : ℚ) ≠ 1 := by
  constructor
  · decide
  · decide

/-- C4, amended.  `validatePenumbra` and `validateDecay` do return the default
on out-of-range numeric input, but `toValidOpacity` clamps an out-of-range
numeric value to the nearest bound of `[0, 1]` (the default is used only for
non-numeric input). -/
theorem validator_out_of_range_policy :
    (∀ v d : ℚ, (v < 0 ∨ 1 < v) → validatePenumbra (some v) d = d) ∧
    (∀ v d : ℚ, (v < 0 ∨ 2 < v) → validateDecay (some v) d = d) ∧
    (∀ v d : ℚ, v < 0 → toValidOpacity (some v) d = 0) ∧
    (∀ v d : ℚ, 1 < v → toValidOpacity (some v) d = 1) ∧
    (∀ d : ℚ, toValidOpacity none d = d) := by
  refine ⟨?_, ?_, ?_, ?_, ?_⟩
  · intro v d h
    simp only [validatePenumbra, toValidFloat]
    rw [if_pos]
    rcases h with h | h
    · exact Or.inl h
    · exact Or.inr h
  · intro v d h
    simp only [validateDecay, toValidFloat]
    rw [if_pos]
    rcases h with h | h
    · exact Or.inl h
    · exact Or.inr h
  · intro v d h
    simp only [toValidOpacity]
    rw [min_eq_left (le_of_lt (lt_of_lt_of_le h (by norm_num))), max_eq_left (le_of_lt h)]
  · intro v d h
    simp only [toValidOpacity]
    rw [min_eq_right (le_of_lt h), max_eq_right (by norm_num)]
  · intro d
    rfl

/-- C4, witness for `validator_out_of_range_policy` at concrete inputs. -/
theorem validator_out_of_range_policy_witness :
    validatePenumbra (some 2) (1/5) = 1/5 ∧ validateDecay (some 3) 2 = 2 ∧
    toValidOpacity (some (-1)) 1 = 0 ∧ toValidOpacity (some 2) 1 = 1 :=
  ⟨validator_out_of_range_policy.1 2 (1/5) (Or.inr (by norm_num)),
   validator_out_of_range_policy.2.1 3 2 (Or.inr (by norm_num)),
   validator_out_of_range_policy.2.2.1 (-1) 1 (by norm_num),
   validator_out_of_range_policy.2.2.2.1 2 1 (by norm_num)⟩

/-! ### C5 — axis-pair validators (`validateLeftRight` / `validateBottomTop`) -/

/-- C5, counterexample.  The claim states that two same-sign values (here
`3` and `7`, both ≥ 0) are replaced by the signed defaults `(-5, 5)`; the
source instead keeps the magnitudes and normalizes the signs, producing
`(-3, 7)`. -/
theorem validateLeftRight_claim_false :
    validateLeftRight 3 7 (-5) 5 = (-3, 7) ∧
      ((-3 : ℚ), (7 : ℚ)) ≠ ((-5 : ℚ), (5 : ℚ)) := by
  constructor
  · decide
  · decide

/-- C5, amended.  For both axis-pair validators: a zero on either side yields
the signed defaults; two nonzero values of the *same* sign are kept with
their magnitudes, the low side forced negative and the high side positive;
two values of *opposite* signs are returned entirely unchanged (including
the inverted configuration `lo > 0 > hi`). -/
theorem axis_pair_validator_characterization :
    (∀ lo hi dl dh : ℚ, lo = 0 ∨ hi = 0 → validateLeftRight lo hi dl dh = (dl, dh)) ∧
    (∀ lo hi dl dh : ℚ, 0 < lo * hi → validateLeftRight lo hi dl dh = (-|lo|, |hi|)) ∧
    (∀ lo hi dl dh : ℚ, lo * hi < 0 → validateLeftRight lo hi dl dh = (lo, hi)) ∧
    (∀ lo hi dl dh : ℚ, lo = 0 ∨ hi = 0 → validateBottomTop lo hi dl dh = (dl, dh)) ∧
    (∀ lo hi dl dh : ℚ, 0 < lo * hi → validateBottomTop lo hi dl dh = (-|lo|, |hi|)) ∧
    (∀ lo hi dl dh : ℚ, lo * hi < 0 → validateBottomTop lo hi dl dh = (lo, hi)) := by
  have hzero : ∀ lo hi : ℚ, 0 < lo * hi → ¬(lo = 0 ∨ hi = 0) := by
    intro lo hi h hc
    rcases hc with hc | hc <;> simp [hc] at h
  have hsame : ∀ lo hi : ℚ, 0 < lo * hi →
      (lo < 0 ∧ hi ≤ 0) ∨ (lo > 0 ∧ hi ≥ 0) := by
    intro lo hi h
    rcases mul_pos_iff.mp h with ⟨h1, h2⟩ | ⟨h1, h2⟩
    · exact Or.inr ⟨h1, le_of_lt h2⟩
    · exact Or.inl ⟨h1, le_of_lt h2⟩
  have hoppz : ∀ lo hi : ℚ, lo * hi < 0 → ¬(lo = 0 ∨ hi = 0) := by
    intro lo hi h hc
    rcases hc with hc | hc <;> simp [hc] at h
  have hopp : ∀ lo hi : ℚ, lo * hi < 0 →
      ¬((lo < 0 ∧ hi ≤ 0) ∨ (lo > 0 ∧ hi ≥ 0)) := by
    intro lo hi h hc
    rcases mul_neg_iff.mp h with ⟨h1, h2⟩ | ⟨h1, h2⟩ <;>
      rcases hc with ⟨h3, h4⟩ | ⟨h3, h4⟩ <;> linarith
  refine ⟨?_, ?_, ?_, ?_, ?_, ?_⟩
  · intro lo hi dl dh h
    simp [validateLeftRight, h]
  · intro lo hi dl dh h
    rw [validateLeftRight, if_neg (hzero lo hi h), if_pos (hsame lo hi h)]
  · intro lo hi dl dh h
    rw [validateLeftRight, if_neg (hoppz lo hi h), if_neg (hopp lo hi h)]
  · intro lo hi dl dh h
    simp [validateBottomTop, h]
  · intro lo hi dl dh h
    rw [validateBottomTop, if_neg (hzero lo hi h), if_pos (hsame lo hi h)]
  · intro lo hi dl dh h
    rw [validateBottomTop, if_neg (hoppz lo hi h), if_neg (hopp lo hi h)]

/-- C5, witness for `axis_pair_validator_characterization` at concrete
inputs (one per conjunct). -/
theorem axis_pair_validator_characterization_witness :
    validateLeftRight 0 5 (-5) 5 = (-5, 5) ∧
    validateLeftRight 3 7 (-5) 5 = (-3, 7) ∧
    validateLeftRight 3 (-7) (-5) 5 = (3, -7) ∧
    validateBottomTop (-4) 0 (-5) 5 = (-5, 5) ∧
    validateBottomTop (-3) (-7) (-5) 5 = (-3, 7) ∧
    validateBottomTop (-3) 7 (-5) 5 = (-3, 7) := by
  refine ⟨?_, ?_, ?_, ?_, ?_, ?_⟩
  · exact axis_pair_validator_characterization.1 0 5 (-5) 5 (Or.inl rfl)
  · have := axis_pair_validator_characterization.2.1 3 7 (-5) 5 (by norm_num)
    rw [this]; norm_num
  · exact axis_pair_validator_characterization.2.2.1 3 (-7) (-5) 5 (by norm_num)
  · exact axis_pair_validator_characterization.2.2.2.1 (-4) 0 (-5) 5 (Or.inr rfl)
  · have := axis_pair_validator_characterization.2.2.2.2.1 (-3) (-7) (-5) 5 (by norm_num)
    rw [this]; norm_num
  · exact axis_pair_validator_characterization.2.2.2.2.2 (-3) 7 (-5) 5 (by norm_num)

/-! ### C6 — `parseBoolean` fallback policy -/

/-- C6, counterexample.  The claim states that a string other than
`"true"`/`"1"` makes `parseBoolean` return the supplied default; the source
instead returns the membership test itself, so `parseBoolean("no", true)` is
`false`, not the default `true`. -/
theorem parseBoolean_claim_false :
    parseBoolean (.str "no") true = false ∧ false ≠ true := by
  constructor
  · decide
  · decide

/-- C6, amended.  The supplied default is returned only for values that are
neither booleans, nor strings, nor numbers.  A string returns whether its
lower-cased form is `"true"` or `"1"` — any other string yields `false`
regardless of the default — and a number returns whether it is nonzero, so
`0` yields `false` regardless of the default (and `NaN` yields `true`). -/
theorem parseBoolean_characterization :
    (∀ b d, parseBoolean (.bool b) d = b) ∧
    (∀ s d, jsToLower s ≠ "true" → jsToLower s ≠ "1" →
      parseBoolean (.str s) d = false) ∧
    (∀ s d, jsToLower s = "true" ∨ jsToLower s = "1" →
      parseBoolean (.str s) d = true) ∧
    (∀ d, parseBoolean (.num 0) d = false) ∧
    (∀ q d, q ≠ 0 → parseBoolean (.num q) d = true) ∧
    (∀ d, parseBoolean .nanNum d = true) ∧
    (∀ d, parseBoolean .nullV d = d ∧ parseBoolean .undef d = d ∧
      parseBoolean .obj d = d) := by
  refine ⟨fun b d => rfl, ?_, ?_, fun d => rfl, ?_, fun d => rfl,
    fun d => ⟨rfl, rfl, rfl⟩⟩
  · intro s d h1 h2
    simp [parseBoolean, List.contains, List.elem_eq_mem, h1, h2]
  · intro s d h
    rcases h with h | h <;> simp [parseBoolean, List.contains, List.elem_eq_mem, h]
  · intro q d h
    simp [parseBoolean, h]

/-- C6, witness for `parseBoolean_characterization` at concrete inputs. -/
theorem parseBoolean_characterization_witness :
    parseBoolean (.str "no") true = false ∧
    parseBoolean (.str "TRUE") false = true ∧
    parseBoolean (.num 7) false = true :=
  ⟨parseBoolean_characterization.2.1 "no" true (by decide) (by decide),
   parseBoolean_characterization.2.2.1 "TRUE" false (Or.inl (by decide)),
   parseBoolean_characterization.2.2.2.2.1 7 false (by norm_num)⟩

/-! ### C2 — `applyTransformations` overwrites; last entry of each type wins -/

/-- Helper: effect of one transform step on the position component. -/
theorem applyTransformStep_position (g : TRS) (e : TransformEntry) :
    (applyTransformStep g e).position =
      if e.type = "translate" then translateVec e.amount else g.position := by
  by_cases h1 : e.type = "translate"
  · simp [applyTransformStep, h1]
  · by_cases h2 : e.type = "rotate"
    · simp [applyTransformStep, h1, h2]
    · by_cases h3 : e.type = "scale" <;> simp [applyTransformStep, h1, h2, h3]

/-- Helper: effect of one transform step on the rotation component. -/
theorem applyTransformStep_rotation (g : TRS) (e : TransformEntry) :
    (applyTransformStep g e).rotation =
      if e.type = "rotate" then rotateVec e.amount else g.rotation := by
  by_cases h1 : e.type = "translate"
  · have h2 : e.type ≠ "rotate" := by rw [h1]; decide
    simp [applyTransformStep, h1, h2]
  · by_cases h2 : e.type = "rotate"
    · simp [applyTransformStep, h1, h2]
    · by_cases h3 : e.type = "scale" <;> simp [applyTransformStep, h1, h2, h3]

/-- Helper: effect of one transform step on the scale component. -/
theorem applyTransformStep_scale (g : TRS) (e : TransformEntry) :
    (applyTransformStep g e).scale =
      if e.type = "scale" then scaleVec e.amount else g.scale := by
  by_cases h1 : e.type = "translate"
  · have h3 : e.type ≠ "scale" := by rw [h1]; decide
    simp [applyTransformStep, h1, h3]
  · by_cases h2 : e.type = "rotate"
    · have h3 : e.type ≠ "scale" := by rw [h2]; decide
      simp [applyTransformStep, h1, h2, h3]
    · by_cases h3 : e.type = "scale" <;> simp [applyTransformStep, h1, h2, h3]

/-- Helper: `applyTransformations` peels off its final entry. -/
theorem applyTransformations_append_singleton (g : TRS)
    (ts : List TransformEntry) (e : TransformEntry) :
    applyTransformations g (ts ++ [e]) =
      applyTransformStep (applyTransformations g ts) e := by
  simp [applyTransformations, List.foldl_append]

/-- Helper: `lastAmountOfType` peels off the final entry. -/
theorem lastAmountOfType_append_singleton (t : String)
    (ts : List TransformEntry) (e : TransformEntry) :
    lastAmountOfType t (ts ++ [e]) =
      if e.type = t then some e.amount else lastAmountOfType t ts := by
  simp [lastAmountOfType, List.foldl_append]

/-- C2, amended.  `applyTransformations` walks the transforms array in
declaration order but each entry *overwrites* the group's
position/rotation/scale component, so the final group state is determined by
the last entry of each operation type alone (a component with no entry of its
type keeps the group's prior value); earlier entries of a type have no
effect and no matrix composition across entries takes place. -/
theorem applyTransformations_last_of_each_type (g : TRS)
    (ts : List TransformEntry) :
    (applyTransformations g ts).position =
      ((lastAmountOfType "translate" ts).map translateVec).getD g.position ∧
    (applyTransformations g ts).rotation =
      ((lastAmountOfType "rotate" ts).map rotateVec).getD g.rotation ∧
    (applyTransformations g ts).scale =
      ((lastAmountOfType "scale" ts).map scaleVec).getD g.scale := by
  induction ts using List.reverseRecOn generalizing g with
  | nil => exact ⟨rfl, rfl, rfl⟩
  | append_singleton ts e ih =>
    obtain ⟨ihp, ihr, ihs⟩ := ih g
    rw [applyTransformations_append_singleton]
    refine ⟨?_, ?_, ?_⟩
    · rw [applyTransformStep_position, lastAmountOfType_append_singleton]
      by_cases h : e.type = "translate" <;> simp [h, ihp]
    · rw [applyTransformStep_rotation, lastAmountOfType_append_singleton]
      by_cases h : e.type = "rotate" <;> simp [h, ihr]
    · rw [applyTransformStep_scale, lastAmountOfType_append_singleton]
      by_cases h : e.type = "scale" <;> simp [h, ihs]

/-- C2, counterexample.  Two successive `translate` entries do not compose:
the first is overwritten by the second, so the result equals applying the
second alone and its x-position is `2`, not the composed `1 + 2 = 3`. -/
theorem applyTransformations_composition_claim_false :
    applyTransformations {} [⟨"translate", ⟨some 1, some 0, some 0⟩⟩,
        ⟨"translate", ⟨some 2, some 0, some 0⟩⟩] =
      applyTransformations {} [⟨"translate", ⟨some 2, some 0, some 0⟩⟩] ∧
    (applyTransformations {} [⟨"translate", ⟨some 1, some 0, some 0⟩⟩,
        ⟨"translate", ⟨some 2, some 0, some 0⟩⟩]).position.x = 2 ∧
    (2 : ℚ) ≠ 1 + 2 := by
  refine ⟨by decide, by decide, by norm_num⟩

/-! ### C9 — directional lights: shadow-bound sign convention -/

/-- C9.  For every directional-light declaration `createLight` produces a
light (it never rejects for sign-convention violations); its shadow-camera
left/bottom bounds are forced non-positive (negated when the validated input
is positive, kept otherwise) and right/top bounds are forced non-negative
(negated — i.e. absolute value — when the validated input is negative), and
the number of correction warnings equals the number of corrected bounds. -/
theorem createLight_directional_sign_convention (d : LightData) (lid : String)
    (h : d.type = "directionallight") :
    ∃ l, createLight d lid =
        (some l,
          (if 0 < validateShadowProperty d.shadowleft (-5) then 1 else 0) +
          (if validateShadowProperty d.shadowright 5 < 0 then 1 else 0) +
          (if 0 < validateShadowProperty d.shadowbottom (-5) then 1 else 0) +
          (if validateShadowProperty d.shadowtop 5 < 0 then 1 else 0)) ∧
      l.shadowLeft = some (if 0 < validateShadowProperty d.shadowleft (-5)
        then -(validateShadowProperty d.shadowleft (-5))
        else validateShadowProperty d.shadowleft (-5)) ∧
      l.shadowRight = some (if validateShadowProperty d.shadowright 5 < 0
        then -(validateShadowProperty d.shadowright 5)
        else validateShadowProperty d.shadowright 5) ∧
      l.shadowBottom = some (if 0 < validateShadowProperty d.shadowbottom (-5)
        then -(validateShadowProperty d.shadowbottom (-5))
        else validateShadowProperty d.shadowbottom (-5)) ∧
      l.shadowTop = some (if validateShadowProperty d.shadowtop 5 < 0
        then -(validateShadowProperty d.shadowtop 5)
        else validateShadowProperty d.shadowtop 5) ∧
      (∀ q, l.shadowLeft = some q → q ≤ 0) ∧
      (∀ q, l.shadowRight = some q → 0 ≤ q) ∧
      (∀ q, l.shadowBottom = some q → q ≤ 0) ∧
      (∀ q, l.shadowTop = some q → 0 ≤ q) := by
  have hp : ¬d.type = "pointlight" := by rw [h]; decide
  have hs : ¬d.type = "spotlight" := by rw [h]; decide
  simp only [createLight, if_neg hp, if_neg hs, if_pos h]
  set L := validateShadowProperty d.shadowleft (-5) with hL
  set R := validateShadowProperty d.shadowright 5 with hR
  set B := validateShadowProperty d.shadowbottom (-5) with hB
  set T := validateShadowProperty d.shadowtop 5 with hT
  refine ⟨_, rfl, ?_, ?_, ?_, ?_, ?_, ?_, ?_, ?_⟩
  · by_cases h1 : 0 < L <;> simp [h1, abs_of_pos]
  · by_cases h1 : R < 0 <;> simp [h1, abs_of_neg]
  · by_cases h1 : 0 < B <;> simp [h1, abs_of_pos]
  · by_cases h1 : T < 0 <;> simp [h1, abs_of_neg]
  · intro q hq
    by_cases h1 : 0 < L
    · simp only [if_pos h1] at hq
      simp only [Option.some.injEq] at hq
      rw [← hq]
      simp [abs_of_pos h1]
      linarith
    · simp only [if_neg h1] at hq
      simp only [Option.some.injEq] at hq
      rw [← hq]
      linarith [not_lt.mp h1]
  · intro q hq
    by_cases h1 : R < 0
    · simp only [if_pos h1, Option.some.injEq] at hq
      rw [← hq]
      rw [abs_of_neg h1]
      linarith
    · simp only [if_neg h1, Option.some.injEq] at hq
      rw [← hq]
      linarith [not_lt.mp h1]
  · intro q hq
    by_cases h1 : 0 < B
    · simp only [if_pos h1, Option.some.injEq] at hq
      rw [← hq]
      simp [abs_of_pos h1]
      linarith
    · simp only [if_neg h1, Option.some.injEq] at hq
      rw [← hq]
      linarith [not_lt.mp h1]
  · intro q hq
    by_cases h1 : T < 0
    · simp only [if_pos h1, Option.some.injEq] at hq
      rw [← hq]
      rw [abs_of_neg h1]
      linarith
    · simp only [if_neg h1, Option.some.injEq] at hq
      rw [← hq]
      linarith [not_lt.mp h1]

/-- C9, witness for `createLight_directional_sign_convention`: a declaration
with `shadowleft = 3` (wrong sign) and `shadowtop = -2` (wrong sign) yields a
light with bounds `-3` and `2` and exactly two correction warnings. -/
theorem createLight_directional_sign_convention_witness :
    ∃ l, createLight { type := "directionallight"
                       shadowleft := some 3
                       shadowtop := some (-2) } "sun" = (some l, 2) ∧
      l.shadowLeft = some (-3) ∧ l.shadowTop = some 2 := by
  obtain ⟨l, he, hl, _, _, ht, _⟩ :=
    createLight_directional_sign_convention
      { type := "directionallight"
        shadowleft := some 3
        shadowtop := some (-2) : LightData } "sun" rfl
  refine ⟨l, ?_, ?_, ?_⟩
  · rw [he]
    norm_num [validateShadowProperty, toValidFloat]
  · rw [hl]
    norm_num [validateShadowProperty, toValidFloat]
  · rw [ht]
    norm_num [validateShadowProperty, toValidFloat]

/-! ### C8 — negative shininess: material rejected before async resolution -/

/-- Helper: if an id does not occur among the remaining entries' keys, the
materials fold never adds it to the mapping nor starts its resolution. -/
theorem materialsFold_not_mem (textures : List String) (id : String) :
    ∀ (entries : List (String × MaterialDataIn))
      (acc : List (String × MyMaterials) × List String),
      id ∉ entries.map Prod.fst →
      lookupA acc.1 id = none → id ∉ acc.2 →
      lookupA (entries.foldl (materialsStep textures) acc).1 id = none ∧
        id ∉ (entries.foldl (materialsStep textures) acc).2 := by
  intro entries
  induction entries with
  | nil => exact fun acc _ h1 h2 => ⟨h1, h2⟩
  | cons e rest ih =>
    intro acc hmem h1 h2
    simp only [List.map_cons, List.mem_cons] at hmem
    push_neg at hmem
    obtain ⟨hk, hrest⟩ := hmem
    simp only [List.foldl_cons]
    apply ih _ hrest
    · show lookupA (materialsStep textures acc e).1 id = none
      simp only [materialsStep]
      split_ifs with hskip hvalid
      · exact h1
      · rw [lookupA_append, h1]
        simp [lookupA, Ne.symm hk]
      · exact h1
    · show id ∉ (materialsStep textures acc e).2
      simp only [materialsStep]
      split_ifs with hskip hvalid
      · exact h2
      · simp only [List.mem_append, List.mem_singleton]
        rintro (h | h)
        · exact h2 h
        · exact hk h
      · exact h2

/-- C8.  A material entry whose shininess field parses to a negative number
fails `isValid()`; `materialsRendering` skips it before its asynchronous
texture resolution would start (its id is not among the started resolutions)
and its id never appears as a key of the resolved materials mapping. -/
theorem material_negative_shininess_rejected
    (entries : List (String × MaterialDataIn)) (textures : List String)
    (init : List (String × MyMaterials)) (id : String) (d : MaterialDataIn)
    (hmem : (id, d) ∈ entries)
    (hsh : toValidFloat d.shininess 30 < 0)
    (hinit : lookupA init id = none)
    (hnodup : (entries.map Prod.fst).Nodup) :
    (mkMyMaterials id d textures).isValid = false ∧
    lookupA (materialsRendering entries textures init).1 id = none ∧
    id ∉ (materialsRendering entries textures init).2 := by
  have hval : (mkMyMaterials id d textures).isValid = false := by
    simp only [MyMaterials.isValid, mkMyMaterials]
    exact decide_eq_false (not_le.mpr hsh)
  refine ⟨hval, ?_⟩
  rw [materialsRendering]
  -- Generalize over the accumulator and induct over the entries.
  suffices h : ∀ (l : List (String × MaterialDataIn))
      (acc : List (String × MyMaterials) × List String),
      (id, d) ∈ l → (l.map Prod.fst).Nodup →
      lookupA acc.1 id = none → id ∉ acc.2 →
      lookupA (l.foldl (materialsStep textures) acc).1 id = none ∧
        id ∉ (l.foldl (materialsStep textures) acc).2 by
    exact h entries (init, []) hmem hnodup hinit (List.not_mem_nil id)
  intro l
  induction l with
  | nil => intro acc h _ _ _; exact absurd h (List.not_mem_nil _)
  | cons e rest ih =>
    intro acc hmem hnodup h1 h2
    simp only [List.map_cons, List.nodup_cons] at hnodup
    obtain ⟨hknotin, hnodup'⟩ := hnodup
    simp only [List.foldl_cons]
    rcases List.mem_cons.mp hmem with heq | hrest
    · -- The head is the bad entry itself: it is skipped in every branch.
      have hstep : materialsStep textures acc e = acc := by
        rw [← heq]
        simp only [materialsStep]
        split_ifs with hskip hvalid
        · rfl
        · exact absurd hvalid (by rw [hval]; exact Bool.false_ne_true)
        · rfl
      rw [hstep]
      have hnot : id ∉ rest.map Prod.fst := by
        rw [← heq] at hknotin
        exact hknotin
      exact materialsFold_not_mem textures id rest acc hnot h1 h2
    · -- The head is a different entry: its key differs from `id` by Nodup.
      have hk : e.1 ≠ id := by
        intro h
        exact hknotin (h ▸ (List.mem_map.mpr ⟨(id, d), hrest, rfl⟩))
      apply ih _ hrest hnodup'
      · show lookupA (materialsStep textures acc e).1 id = none
        simp only [materialsStep]
        split_ifs with hskip hvalid
        · exact h1
        · rw [lookupA_append, h1]
          simp [lookupA, hk]
        · exact h1
      · show id ∉ (materialsStep textures acc e).2
        simp only [materialsStep]
        split_ifs with hskip hvalid
        · exact h2
        · simp only [List.mem_append, List.mem_singleton]
          rintro (h | h)
          · exact h2 h
          · exact hk h.symm
        · exact h2

/-- C8, witness for `material_negative_shininess_rejected`: a two-entry
materials section where `"bad"` has shininess `-1`; after rendering, `"bad"`
is absent from the mapping and from the started resolutions. -/
theorem material_negative_shininess_rejected_witness :
    (mkMyMaterials "bad" { shininess := some (-1) } []).isValid = false ∧
    lookupA (materialsRendering
      [("ok", {}), ("bad", { shininess := some (-1) })] [] []).1 "bad" = none ∧
    "bad" ∉ (materialsRendering
      [("ok", {}), ("bad", { shininess := some (-1) })] [] []).2 :=
  material_negative_shininess_rejected
    [("ok", {}), ("bad", { shininess := some (-1) })] [] [] "bad"
    { shininess := some (-1) }
    (by simp) (by norm_num [toValidFloat]) rfl (by simp)

/-! ### C3 — triangle/NURBS special texture scaling is dead code -/

/-- C3 (code bug).  `specialTextureHandling` is initialized `false` and never
reassigned, so whenever a map is bound the post-pass takes the general
bounding-box branch for *every* primitive kind — the triangle area and NURBS
`(parts_u, parts_v)` special branches are unreachable.  At the failing input
(triangle `(0,0,0), (1,0,0), (0,1,0)` with a mapped material and
`texlength_s = texlength_t = 1`) the code assigns the bounding-box repeat
`(1, 1)` while the claimed special handling would assign the area-based
`(1/2, 1/2)`. -/
theorem createPrimitive_special_handling_dead :
    specialTextureHandling = false ∧
    (∀ (ptype : String) (positions : List Vec3Q) (pu pv : Option ℚ)
      (m : MeshMat), m.hasMap = true →
      texRepeatPostPass ptype positions pu pv m =
        some (generalRepeat positions m)) ∧
    (∀ (p : PrimitiveData) (m : Option MeshMat), p.type = "polygon" →
      createPrimitiveRepeat p m = none) ∧
    createPrimitiveRepeat
      ⟨"triangle", {}, {}, ⟨some 0, some 0, some 0⟩, ⟨some 1, some 0, some 0⟩,
        ⟨some 0, some 1, some 0⟩, none, none⟩
      (some ⟨true, 1, 1⟩) = some (.num 1, .num 1) ∧
    specialTriangleRepeat
      (triangleGeometry ⟨some 0, some 0, some 0⟩ ⟨some 1, some 0, some 0⟩
        ⟨some 0, some 1, some 0⟩) ⟨true, 1, 1⟩ = (.num (1/2), .num (1/2)) ∧
    (JsNum.num 1, JsNum.num 1) ≠ (JsNum.num (1/2), JsNum.num (1/2)) := by
  refine ⟨rfl, ?_, ?_, ?_, ?_, ?_⟩
  · intro ptype positions pu pv m hm
    simp [texRepeatPostPass, hm, specialTextureHandling]
  · intro p m hp
    simp [createPrimitiveRepeat, hp]
  · simp only [createPrimitiveRepeat]
    rw [if_neg (by decide : ¬("triangle" : String) = "polygon"),
      if_neg (by decide : ¬("triangle" : String) = "rectangle")]
    norm_num [texRepeatPostPass, specialTextureHandling, generalRepeat,
      triangleGeometry, toValidFloat, bboxExtentX, bboxExtentY, jsDiv, jsOrOne,
      jsFalsy, List.foldl, max_def, min_def]
  · norm_num [specialTriangleRepeat, triangleGeometry, toValidFloat, vsub,
      vcross, vlengthSq, vlength, ratSqrt, Rat.num_one, Rat.den_one, jsDiv,
      List.getD, List.get?, Option.getD]
  · norm_num

/-- C3, witness for `createPrimitive_special_handling_dead` at concrete
inputs: a box-typed geometry with a mapped material takes the general
bounding-box branch. -/
theorem createPrimitive_special_handling_dead_witness :
    texRepeatPostPass "box" [⟨0, 0, 0⟩, ⟨2, 3, 0⟩] none none ⟨true, 1, 1⟩ =
      some (.num 2, .num 3) ∧
    createPrimitiveRepeat ⟨"polygon", {}, {}, {}, {}, {}, none, none⟩
      (some ⟨true, 1, 1⟩) = none := by
  constructor
  · have h := createPrimitive_special_handling_dead.2.1 "box"
      [⟨0, 0, 0⟩, ⟨2, 3, 0⟩] none none ⟨true, 1, 1⟩ rfl
    rw [h]
    norm_num [generalRepeat, bboxExtentX, bboxExtentY, jsDiv, jsOrOne, jsFalsy,
      List.foldl, max_def, min_def]
  · exact createPrimitive_special_handling_dead.2.2.1
      ⟨"polygon", {}, {}, {}, {}, {}, none, none⟩ (some ⟨true, 1, 1⟩) rfl

/-! ### C7 — the `|| 1` fallback of the general texture scaling -/

/-- C7, counterexample.  The claim states a zero `texlength_s` makes the
repeat component fall back to `1` regardless of the bounding-box extent; but
for a rectangle of width `2` with `texlength_s = 0` the division yields
`Infinity`, which is truthy, so the assigned component is `Infinity`,
not `1`. -/
theorem texRepeat_zero_divisor_claim_false :
    createPrimitiveRepeat
      ⟨"rectangle", ⟨some 0, some 0, none⟩, ⟨some 2, some 1, none⟩,
        {}, {}, {}, none, none⟩
      (some ⟨true, 0, 1⟩) = some (.inf, .num 1) ∧
    JsNum.inf ≠ .num 1 := by
  constructor
  · simp only [createPrimitiveRepeat]
    rw [if_neg (by decide : ¬("rectangle" : String) = "polygon")]
    norm_num [texRepeatPostPass, specialTextureHandling, generalRepeat,
      rectangleGeometry, bboxExtentX, bboxExtentY, toValidFloat, jsDiv,
      jsOrOne, jsFalsy, List.foldl, max_def, min_def]
  · decide

/-- C7, amended.  In the general bounding-box branch, the `|| 1` fallback
replaces exactly a falsy division result (`0` or `NaN`): a zero
`texlength_s` yields `1` only when the bounding-box extent is also `0`
(`0 / 0` is `NaN`); a zero `texlength_s` with positive extent yields
`Infinity`, not `1`; and a nonzero `texlength_s` with zero extent yields the
fallback `1`.  (Symmetrically for `texlength_t` and the y-extent.) -/
theorem texRepeat_zero_divisor_fallback (ptype : String)
    (positions : List Vec3Q) (pu pv : Option ℚ) (m : MeshMat)
    (hm : m.hasMap = true) :
    ((m.texlength_s = 0 ∧ bboxExtentX positions = 0) →
      ∃ r2, texRepeatPostPass ptype positions pu pv m = some (.num 1, r2)) ∧
    ((m.texlength_s = 0 ∧ 0 < bboxExtentX positions) →
      ∃ r2, texRepeatPostPass ptype positions pu pv m = some (.inf, r2)) ∧
    ((m.texlength_s ≠ 0 ∧ bboxExtentX positions = 0) →
      ∃ r2, texRepeatPostPass ptype positions pu pv m = some (.num 1, r2)) := by
  have hgen : texRepeatPostPass ptype positions pu pv m =
      some (generalRepeat positions m) := by
    simp [texRepeatPostPass, hm, specialTextureHandling]
  refine ⟨?_, ?_, ?_⟩
  · rintro ⟨ht, he⟩
    refine ⟨(generalRepeat positions m).2, ?_⟩
    rw [hgen, generalRepeat, ht, he]
    simp [jsDiv, jsOrOne, jsFalsy]
  · rintro ⟨ht, he⟩
    refine ⟨(generalRepeat positions m).2, ?_⟩
    rw [hgen, generalRepeat, ht]
    simp [jsDiv, jsOrOne, jsFalsy, ne_of_gt he, he]
  · rintro ⟨ht, he⟩
    refine ⟨(generalRepeat positions m).2, ?_⟩
    rw [hgen, generalRepeat, he]
    simp [jsDiv, jsOrOne, jsFalsy, ht]

/-- C7, witness for `texRepeat_zero_divisor_fallback` at concrete inputs
(one per conjunct). -/
theorem texRepeat_zero_divisor_fallback_witness :
    (texRepeatPostPass "box" [⟨0, 0, 0⟩] none none ⟨true, 0, 1⟩).map
      Prod.fst = some (.num 1) ∧
    (texRepeatPostPass "box" [⟨0, 0, 0⟩, ⟨2, 0, 0⟩] none none
      ⟨true, 0, 1⟩).map Prod.fst = some .inf ∧
    (texRepeatPostPass "box" [⟨0, 0, 0⟩] none none ⟨true, 5, 1⟩).map
      Prod.fst = some (.num 1) := by
  refine ⟨?_, ?_, ?_⟩
  · obtain ⟨r2, h⟩ := (texRepeat_zero_divisor_fallback "box" [⟨0, 0, 0⟩]
      none none ⟨true, 0, 1⟩ rfl).1 ⟨rfl, by norm_num [bboxExtentX]⟩
    rw [h]
    rfl
  · obtain ⟨r2, h⟩ := (texRepeat_zero_divisor_fallback "box"
      [⟨0, 0, 0⟩, ⟨2, 0, 0⟩] none none ⟨true, 0, 1⟩ rfl).2.1
      ⟨rfl, by norm_num [bboxExtentX, List.foldl, max_def, min_def]⟩
    rw [h]
    rfl
  · obtain ⟨r2, h⟩ := (texRepeat_zero_divisor_fallback "box" [⟨0, 0, 0⟩]
      none none ⟨true, 5, 1⟩ rfl).2.2
      ⟨by norm_num, by norm_num [bboxExtentX]⟩
    rw [h]
    rfl

/-! ### Graph parser: basic lemmas -/

/-- Helper: a successful lookup is a membership. -/
theorem lookupA_mem {κ α : Type} [DecidableEq κ] :
    ∀ (l : List (κ × α)) (k : κ) (v : α), lookupA l k = some v → (k, v) ∈ l := by
  intro l
  induction l with
  | nil => intro k v h; exact absurd h (by simp [lookupA])
  | cons e rest ih =>
    intro k v h
    obtain ⟨k', v'⟩ := e
    by_cases hk : k' = k
    · subst hk
      simp only [lookupA, eq_self_iff_true, if_true, Option.some.injEq] at h
      subst h
      exact List.mem_cons_self _ _
    · simp only [lookupA, if_neg hk] at h
      exact List.mem_cons_of_mem _ (ih k v h)

/-- Helper: a `Nodup` mapped list makes the map injective on members. -/
theorem nodup_map_inj {α β : Type} {f : α → β} :
    ∀ (l : List α), (l.map f).Nodup →
      ∀ a ∈ l, ∀ b ∈ l, f a = f b → a = b := by
  intro l
  induction l with
  | nil => intro _ a ha; exact absurd ha (List.not_mem_nil a)
  | cons e rest ih =>
    intro hn a ha b hb hf
    simp only [List.map_cons, List.nodup_cons] at hn
    obtain ⟨hne, hn'⟩ := hn
    rcases List.mem_cons.mp ha with rfl | ha' <;>
      rcases List.mem_cons.mp hb with rfl | hb'
    · rfl
    · exact absurd (hf ▸ List.mem_map_of_mem f hb') hne
    · exact absurd (hf ▸ List.mem_map_of_mem f ha') hne
    · exact ih hn' a ha' b hb' hf

/-- Helper: a deep clone's root takes the given fresh identity. -/
theorem cloneObj_oid (g : GObj) (ctr : ℕ) : (cloneObj g ctr).1.oid = ctr := by
  cases g <;> rfl

mutual
/-- Helper: cloning advances the allocation counter. -/
theorem cloneObj_ctr (g : GObj) (ctr : ℕ) : ctr < (cloneObj g ctr).2 := by
  cases g with
  | group o trs m c r children =>
      exact lt_of_lt_of_le (Nat.lt_succ_self ctr) (cloneList_ctr children (ctr + 1))
  | lodObj o trs levels =>
      exact lt_of_lt_of_le (Nat.lt_succ_self ctr) (cloneLevels_ctr levels (ctr + 1))
  | mesh o p m c r => exact Nat.lt_succ_self ctr
  | lightGroup o t => exact Nat.lt_succ_self ctr

/-- Helper: cloning a list advances the allocation counter monotonically. -/
theorem cloneList_ctr (l : List GObj) (ctr : ℕ) : ctr ≤ (cloneList l ctr).2 := by
  cases l with
  | nil => exact le_refl ctr
  | cons g gs =>
      exact le_trans (le_of_lt (cloneObj_ctr g ctr))
        (cloneList_ctr gs (cloneObj g ctr).2)

/-- Helper: cloning a level list advances the allocation counter
monotonically. -/
theorem cloneLevels_ctr (l : List (GObj × ℚ)) (ctr : ℕ) :
    ctr ≤ (cloneLevels l ctr).2 := by
  cases l with
  | nil => exact le_refl ctr
  | cons e gs =>
      obtain ⟨g, d⟩ := e
      exact le_trans (le_of_lt (cloneObj_ctr g ctr))
        (cloneLevels_ctr gs (cloneObj g ctr).2)
end

/-- Helper: re-applying a material does not change an object's identity. -/
theorem applyMaterialToNode_oid (g : GObj) (m : ℕ) (pc pr : Bool) :
    (applyMaterialToNode g m pc pr).oid = g.oid := by
  cases g <;> rfl

/-- Helper: the empty step. -/
theorem StepsNew.refl (st : PState) : StepsNew st st [] := by
  refine ⟨by simp, by simp, le_refl _, by simp, by simp⟩

/-- Helper: a pure counter bump is a step with no new cache entries. -/
theorem StepsNew.ctrOnly {st : PState} {c : ℕ} (h : st.ctr ≤ c) :
    StepsNew st { st with ctr := c } [] := by
  refine ⟨by simp, by simp, h, by simp, by simp⟩

/-- Helper: steps compose; the later block sits in front. -/
theorem StepsNew.trans {st st1 st2 : PState} {n1 n2 : List (CacheKey × GObj)}
    (h1 : StepsNew st st1 n1) (h2 : StepsNew st1 st2 n2) :
    StepsNew st st2 (n2 ++ n1) := by
  obtain ⟨ha1, hb1, hc1, hd1, he1⟩ := h1
  obtain ⟨ha2, hb2, hc2, hd2, he2⟩ := h2
  refine ⟨?_, ?_, le_trans hc1 hc2, ?_, ?_⟩
  · rw [ha2, ha1, List.append_assoc]
  · rw [hb2, hb1, List.map_append, List.append_assoc]
  · intro e he
    rcases List.mem_append.mp he with h | h
    · obtain ⟨hl, hr⟩ := hd2 e h
      exact ⟨le_trans hc1 hl, hr⟩
    · obtain ⟨hl, hr⟩ := hd1 e h
      exact ⟨hl, lt_of_lt_of_le hr hc2⟩
  · rw [List.map_append]
    apply List.Nodup.append he2 he1
    intro o ho2 ho1
    obtain ⟨e2, he2', rfl⟩ := List.mem_map.mp ho2
    obtain ⟨e1, he1', hoe⟩ := List.mem_map.mp ho1
    have b2 := (hd2 e2 he2').1
    have b1 := (hd1 e1 he1').2
    rw [hoe] at b1
    exact absurd (lt_of_lt_of_le b1 b2) (lt_irrefl _)

/-- Helper: a step out of a well-formed state lands in a well-formed
state. -/
theorem PState.WF.ofSteps {st st' : PState} {new : List (CacheKey × GObj)}
    (hwf : st.WF) (hs : StepsNew st st' new) : st'.WF := by
  obtain ⟨hp, ho, hn⟩ := hwf
  obtain ⟨ha, hb, hc, hd, he⟩ := hs
  refine ⟨?_, ?_, ?_⟩
  · rw [ha, hb, hp, List.map_append]
  · intro e hmem
    rw [ha] at hmem
    rcases List.mem_append.mp hmem with h | h
    · exact (hd e h).2
    · exact lt_of_lt_of_le (ho e h) hc
  · rw [ha, List.map_append]
    apply List.Nodup.append he hn
    intro o hon hoo
    obtain ⟨e2, he2', rfl⟩ := List.mem_map.mp hon
    obtain ⟨e1, he1', hoe⟩ := List.mem_map.mp hoo
    have b2 := (hd e2 he2').1
    have b1 := ho e1 he1'
    rw [hoe] at b1
    exact absurd (lt_of_lt_of_le b1 b2) (lt_irrefl _)

/-- Helper: in a well-formed state, distinct cache keys hold distinct
objects. -/
theorem PState.WF.distinct_oids {st : PState} (hwf : st.WF)
    {k1 k2 : CacheKey} {v1 v2 : GObj}
    (h1 : lookupA st.nodes k1 = some v1) (h2 : lookupA st.nodes k2 = some v2)
    (hk : k1 ≠ k2) : v1.oid ≠ v2.oid := by
  intro ho
  have m1 := lookupA_mem st.nodes k1 v1 h1
  have m2 := lookupA_mem st.nodes k2 v2 h2
  have := nodup_map_inj st.nodes hwf.2.2 (k1, v1) m1 (k2, v2) m2 ho
  exact hk (congrArg Prod.fst this)

/-! ### Graph parser: every finished computation is a `StepsNew` step -/

/-- Helper: the LOD-level fold only steps the state. -/
theorem foldLodEntries_steps {recm : String → PState → NodeRes}
    (hrec : ∀ nid st res st', recm nid st = some (res, st') →
      ∃ new, StepsNew st st' new) :
    ∀ (entries : List LodEntry) (acc : List (GObj × ℚ)) (st : PState)
      (levels : List (GObj × ℚ)) (st' : PState),
      foldLodEntries recm entries acc st = some (levels, st') →
      ∃ new, StepsNew st st' new := by
  intro entries
  induction entries with
  | nil =>
    intro acc st levels st' h
    simp only [foldLodEntries, Option.some.injEq, Prod.mk.injEq] at h
    exact ⟨[], h.2 ▸ StepsNew.refl st⟩
  | cons e rest ih =>
    intro acc st levels st' h
    simp only [foldLodEntries] at h
    split at h
    · split at h
      · exact ih _ _ _ _ h
      · split at h
        · exact absurd h (by simp)
        · obtain ⟨n1, h1⟩ := hrec _ _ _ _ (by assumption)
          obtain ⟨n2, h2⟩ := ih _ _ _ _ h
          exact ⟨n2 ++ n1, h1.trans h2⟩
        · obtain ⟨n1, h1⟩ := hrec _ _ _ _ (by assumption)
          obtain ⟨n2, h2⟩ := ih _ _ _ _ h
          exact ⟨n2 ++ n1, h1.trans h2⟩
    · exact ih _ _ _ _ h

/-- Helper: `createLOD` only steps the state. -/
theorem createLODF_steps {rec : RecFn}
    (hrec : ∀ nid m c r st res st', rec nid m c r st = some (res, st') →
      ∃ new, StepsNew st st' new) :
    ∀ (pm : Option ℕ) (pc pr : Bool) (ld : Option NodeData) (st : PState)
      (res : Option GObj) (st' : PState),
      createLODF rec pm pc pr ld st = some (res, st') →
      ∃ new, StepsNew st st' new := by
  intro pm pc pr ld st res st' h
  match ld with
  | none =>
    simp only [createLODF, Option.some.injEq, Prod.mk.injEq] at h
    exact ⟨[], h.2 ▸ StepsNew.refl st⟩
  | some ldd =>
    simp only [createLODF] at h
    split at h
    · simp only [Option.some.injEq, Prod.mk.injEq] at h
      exact ⟨[], h.2 ▸ StepsNew.refl st⟩
    · split at h
      · exact absurd h (by simp)
      · simp only [Option.some.injEq, Prod.mk.injEq] at h
        obtain ⟨n2, h2⟩ := foldLodEntries_steps
          (fun nid s res s' hh => hrec nid pm pc pr s res s' hh) _ _ _ _ _
          (by assumption)
        refine ⟨n2 ++ [], ?_⟩
        exact h.2 ▸ (StepsNew.ctrOnly (Nat.le_succ st.ctr)).trans h2

/-- Helper: `handleChild` only steps the state. -/
theorem handleChildF_steps {rec : RecFn}
    (hrec : ∀ nid m c r st res st', rec nid m c r st = some (res, st') →
      ∃ new, StepsNew st st' new) :
    ∀ (pm : Option ℕ) (pc pr : Bool) (cd : NodeData) (st : PState)
      (ks : List GObj) (st' : PState),
      handleChildF rec pm pc pr cd st = some (ks, st') →
      ∃ new, StepsNew st st' new := by
  intro pm pc pr cd st ks st' h
  simp only [handleChildF] at h
  split at h
  · -- lod child
    split at h
    · exact absurd h (by simp)
    · simp only [Option.some.injEq, Prod.mk.injEq] at h
      exact h.2 ▸ createLODF_steps hrec _ _ _ _ _ _ _ (by assumption)
    · simp only [Option.some.injEq, Prod.mk.injEq] at h
      exact h.2 ▸ createLODF_steps hrec _ _ _ _ _ _ _ (by assumption)
  · split at h
    · -- noderef with falsy nodeId
      split at h
      · simp only [Option.some.injEq, Prod.mk.injEq] at h
        exact ⟨[], h.2 ▸ StepsNew.refl st⟩
      · -- noderef
        split at h
        · exact absurd h (by simp)
        · simp only [Option.some.injEq, Prod.mk.injEq] at h
          exact h.2 ▸ hrec _ _ _ _ _ _ _ (by assumption)
        · simp only [Option.some.injEq, Prod.mk.injEq] at h
          obtain ⟨n1, h1⟩ := hrec _ _ _ _ _ _ _ (by assumption)
          refine ⟨[] ++ n1, ?_⟩
          refine h.2 ▸ h1.trans (StepsNew.ctrOnly ?_)
          exact le_of_lt (cloneObj_ctr _ _)
    · split at h
      · -- primitive
        simp only [Option.some.injEq, Prod.mk.injEq] at h
        exact ⟨[], h.2 ▸ StepsNew.ctrOnly (Nat.le_succ st.ctr)⟩
      · split at h
        · -- light
          simp only [Option.some.injEq, Prod.mk.injEq] at h
          exact ⟨[], h.2 ▸ StepsNew.ctrOnly (Nat.le_succ st.ctr)⟩
        · -- unknown type
          simp only [Option.some.injEq, Prod.mk.injEq] at h
          exact ⟨[], h.2 ▸ StepsNew.refl st⟩

/-- Helper: the direct/nodesList child fold only steps the state. -/
theorem foldHandleChildren_steps
    {hc : NodeData → PState → Option (List GObj × PState)}
    (hhc : ∀ cd st ks st', hc cd st = some (ks, st') →
      ∃ new, StepsNew st st' new) :
    ∀ (cds : List NodeData) (acc : List GObj) (st : PState) (ks : List GObj)
      (st' : PState),
      foldHandleChildren hc cds acc st = some (ks, st') →
      ∃ new, StepsNew st st' new := by
  intro cds
  induction cds with
  | nil =>
    intro acc st ks st' h
    simp only [foldHandleChildren, Option.some.injEq, Prod.mk.injEq] at h
    exact ⟨[], h.2 ▸ StepsNew.refl st⟩
  | cons cd rest ih =>
    intro acc st ks st' h
    simp only [foldHandleChildren] at h
    split at h
    · exact absurd h (by simp)
    · obtain ⟨n1, h1⟩ := hhc _ _ _ _ (by assumption)
      obtain ⟨n2, h2⟩ := ih _ _ _ _ h
      exact ⟨n2 ++ n1, h1.trans h2⟩

/-- Helper: the `lodsList` fold only steps the state. -/
theorem foldLodsList_steps {cl : Option NodeData → PState → NodeRes}
    (hcl : ∀ ld st res st', cl ld st = some (res, st') →
      ∃ new, StepsNew st st' new)
    (graph : List (String × NodeData)) :
    ∀ (lids : List String) (acc : List GObj) (st : PState) (ks : List GObj)
      (st' : PState),
      foldLodsList cl graph lids acc st = some (ks, st') →
      ∃ new, StepsNew st st' new := by
  intro lids
  induction lids with
  | nil =>
    intro acc st ks st' h
    simp only [foldLodsList, Option.some.injEq, Prod.mk.injEq] at h
    exact ⟨[], h.2 ▸ StepsNew.refl st⟩
  | cons lid rest ih =>
    intro acc st ks st' h
    simp only [foldLodsList] at h
    split at h
    · exact absurd h (by simp)
    · obtain ⟨n1, h1⟩ := hcl _ _ _ _ (by assumption)
      obtain ⟨n2, h2⟩ := ih _ _ _ _ h
      exact ⟨n2 ++ n1, h1.trans h2⟩
    · obtain ⟨n1, h1⟩ := hcl _ _ _ _ (by assumption)
      obtain ⟨n2, h2⟩ := ih _ _ _ _ h
      exact ⟨n2 ++ n1, h1.trans h2⟩

/-- Helper: the final cache write of a fresh build, composed with the
children-processing step, is a step whose new block is headed by the new
entry (whose group carries the identity allocated at entry). -/
theorem StepsNew.finalWrite {st st2 : PState} {nch : List (CacheKey × GObj)}
    {key : CacheKey} {G : GObj}
    (hch : StepsNew { st with ctr := st.ctr + 1 } st2 nch)
    (hoid : G.oid = st.ctr) :
    StepsNew st
      { st2 with
          processed := key :: st2.processed
          nodes := (key, G) :: st2.nodes }
      ((key, G) :: nch) := by
  obtain ⟨hA, hB, hC, hD, hE⟩ := hch
  refine ⟨?_, ?_, ?_, ?_, ?_⟩
  · show (key, G) :: st2.nodes = ((key, G) :: nch) ++ st.nodes
    rw [hA]
    rfl
  · show key :: st2.processed = _ ++ st.processed
    rw [hB]
    rfl
  · exact le_trans (Nat.le_succ st.ctr) hC
  · intro e he
    rcases List.mem_cons.mp he with rfl | he'
    · refine ⟨le_of_eq hoid.symm, ?_⟩
      show G.oid < st2.ctr
      rw [hoid]
      exact lt_of_lt_of_le (Nat.lt_succ_self st.ctr) hC
    · obtain ⟨hl, hr⟩ := hD e he'
      exact ⟨le_trans (Nat.le_succ st.ctr) hl, hr⟩
  · simp only [List.map_cons, List.nodup_cons]
    refine ⟨?_, hE⟩
    intro hmem
    obtain ⟨e, he', hoe⟩ := List.mem_map.mp hmem
    have := (hD e he').1
    rw [hoe, hoid] at this
    exact absurd this (by simp)

/-- Every finished `createNode` computation is a `StepsNew` step: the cache
grows by a block of freshly allocated, pairwise-distinct entries and nothing
is removed or overwritten. -/
theorem createNode_steps :
    ∀ (fuel : ℕ) (ctx : Ctx) (nodeId : String) (m : Option ℕ) (c r : Bool)
      (st : PState) (res : Option GObj) (st' : PState),
      createNode fuel ctx nodeId m c r st = some (res, st') →
      ∃ new, StepsNew st st' new := by
  intro fuel
  induction fuel with
  | zero => intro ctx nodeId m c r st res st' h; exact absurd h (by simp [createNode])
  | succ fuel ih =>
    intro ctx nodeId m c r st res st' h
    simp only [createNode] at h
    split at h
    · simp only [Option.some.injEq, Prod.mk.injEq] at h
      exact ⟨[], h.2 ▸ StepsNew.refl st⟩
    · split at h
      · simp only [Option.some.injEq, Prod.mk.injEq] at h
        exact ⟨[], h.2 ▸ StepsNew.refl st⟩
      · -- fresh build
        rename_i nodeData hlook
        split at h
        · exact absurd h (by simp)
        · rename_i kids st2 heq
          simp only [Option.some.injEq, Prod.mk.injEq] at h
          -- the children processing is a step from the allocated state
          have hch : ∃ new, StepsNew { st with ctr := st.ctr + 1 }
              st2 new := by
            rcases hkr : nodeData.children with _ | ch
            · rw [hkr] at heq
              simp only [Option.some.injEq, Prod.mk.injEq] at heq
              exact ⟨[], heq.2 ▸ StepsNew.refl _⟩
            · rw [hkr] at heq
              simp only at heq
              split at heq
              · exact absurd heq (by simp)
              · split at heq
                · exact absurd heq (by simp)
                · rename_i ks1 stA hd1 x ks2 stB hd2
                  obtain ⟨na, ha⟩ := foldHandleChildren_steps
                    (fun cd s ks s' hh =>
                      handleChildF_steps (fun a b cc d e f g hhh =>
                        ih ctx a b cc d e f g hhh) _ _ _ _ _ _ _ hh)
                    _ _ _ _ _ hd1
                  obtain ⟨nb, hb⟩ := foldHandleChildren_steps
                    (fun cd s ks s' hh =>
                      handleChildF_steps (fun a b cc d e f g hhh =>
                        ih ctx a b cc d e f g hhh) _ _ _ _ _ _ _ hh)
                    _ _ _ _ _ hd2
                  obtain ⟨nc, hcc⟩ := foldLodsList_steps
                    (fun ld s res s' hh =>
                      createLODF_steps (fun a b cc d e f g hhh =>
                        ih ctx a b cc d e f g hhh) _ _ _ _ _ _ _ hh)
                    ctx.graph _ _ _ _ _ heq
                  exact ⟨nc ++ (nb ++ na), (ha.trans hb).trans hcc⟩
          obtain ⟨nch, hch⟩ := hch
          rw [← h.2]
          exact ⟨_, StepsNew.finalWrite hch rfl⟩

/-! ### Graph parser: cache behaviour of `createNode` -/

/-- Helper: a `createNode` call that returns a group leaves that group
cached under its key (a cache hit returns the stored entry unchanged; a
fresh build writes its entry at the front). -/
theorem createNode_cached {fuel : ℕ} {ctx : Ctx} {nodeId : String}
    {m : Option ℕ} {c r : Bool} {st : PState} {grp : GObj} {st' : PState}
    (h : createNode fuel ctx nodeId m c r st = some (some grp, st')) :
    lookupA st'.nodes (nodeId, m) = some grp ∧
      ((nodeId, m) : CacheKey) ∈ st'.processed := by
  cases fuel with
  | zero => exact absurd h (by simp [createNode])
  | succ fuel =>
    simp only [createNode] at h
    split at h
    · rename_i hmem
      simp only [Option.some.injEq, Prod.mk.injEq] at h
      exact ⟨h.2 ▸ h.1, h.2 ▸ hmem⟩
    · split at h
      · simp at h
      · split at h
        · exact absurd h (by simp)
        · rename_i hnp nodeData hlook x kids st2 heq
          simp only [Option.some.injEq, Prod.mk.injEq] at h
          rw [← h.2]
          constructor
          · show lookupA (((nodeId, m), _) :: st2.nodes) (nodeId, m) = some grp
            simp [lookupA, h.1]
          · exact List.mem_cons_self _ _

/-- Helper: a fresh (uncached) build returns a group carrying the identity
allocated at entry, and writes its cache entry *last*, in front of
everything the recursive children expansion cached — the cache is a
memoization table written post-order, never a visited-marker. -/
theorem createNode_fresh {fuel : ℕ} {ctx : Ctx} {nodeId : String}
    {m : Option ℕ} {c r : Bool} {st : PState} {grp : GObj} {st' : PState}
    (hnp : ((nodeId, m) : CacheKey) ∉ st.processed)
    (h : createNode fuel ctx nodeId m c r st = some (some grp, st')) :
    grp.oid = st.ctr ∧
    (∃ rest, st'.nodes = ((nodeId, m), grp) :: rest) ∧
    (∃ restP, st'.processed = (nodeId, m) :: restP) := by
  cases fuel with
  | zero => exact absurd h (by simp [createNode])
  | succ fuel =>
    simp only [createNode] at h
    split at h
    · exact absurd (by assumption) hnp
    · split at h
      · simp at h
      · split at h
        · exact absurd h (by simp)
        · rename_i hnp' nodeData hlook x kids st2 heq
          simp only [Option.some.injEq, Prod.mk.injEq] at h
          rw [← h.2, ← h.1]
          exact ⟨rfl, ⟨st2.nodes, rfl⟩, ⟨st2.processed, rfl⟩⟩

/-- Helper (C1 part a): after a call has built and cached a group for a
key, any later call with the same `(nodeId, parentMaterial)` key is a cache
hit: it returns the *identical* object and leaves the state untouched. -/
theorem createNode_second_call_same_key (fuel fuel2 : ℕ) (ctx : Ctx)
    (nodeId : String) (m : Option ℕ) (c r c2 r2 : Bool) (st : PState)
    (grp : GObj) (st' : PState)
    (h : createNode fuel ctx nodeId m c r st = some (some grp, st')) :
    createNode (fuel2 + 1) ctx nodeId m c2 r2 st' = some (some grp, st') := by
  obtain ⟨hlook, hmem⟩ := createNode_cached h
  simp only [createNode, if_pos hmem, hlook]

/-- Helper (C1 part b): a call with the same node id but a *different*
parent material never returns the instance cached for the first key: the
two groups have different identities. -/
theorem createNode_other_material_distinct (fuel fuel2 : ℕ) (ctx : Ctx)
    (nodeId : String) (m m' : Option ℕ) (c r c' r' : Bool) (st : PState)
    (grp grp' : GObj) (st' st'' : PState)
    (hwf : st.WF) (hm : m ≠ m')
    (h1 : createNode fuel ctx nodeId m c r st = some (some grp, st'))
    (h2 : createNode fuel2 ctx nodeId m' c' r' st' = some (some grp', st'')) :
    grp.oid ≠ grp'.oid ∧ grp ≠ grp' := by
  obtain ⟨new, hs⟩ := createNode_steps fuel ctx nodeId m c r st _ st' h1
  have hwf' : st'.WF := hwf.ofSteps hs
  obtain ⟨hlook, _⟩ := createNode_cached h1
  have hoid : grp.oid ≠ grp'.oid := by
    by_cases hmem : ((nodeId, m') : CacheKey) ∈ st'.processed
    · -- the second call is a cache hit on the other key
      cases fuel2 with
      | zero => exact absurd h2 (by simp [createNode])
      | succ fuel2 =>
        simp only [createNode, if_pos hmem] at h2
        simp only [Option.some.injEq, Prod.mk.injEq] at h2
        exact hwf'.distinct_oids hlook h2.1
          (fun hk => hm (congrArg Prod.snd hk))
    · -- the second call is a fresh build with a fresh identity
      obtain ⟨hoid', _, _⟩ := createNode_fresh hmem h2
      have hlt : grp.oid < st'.ctr :=
        hwf'.2.1 _ (lookupA_mem st'.nodes (nodeId, m) grp hlook)
      rw [hoid']
      exact ne_of_lt hlt
  exact ⟨hoid, fun he => hoid (congrArg GObj.oid he)⟩

/-- Helper (C1 part c-noderef): the `noderef` branch of `handleChild`
attaches a *deep clone* of the retrieved-or-built node, never the cached
instance itself: the attached object is the (material-re-applied) clone,
carries a fresh identity, and differs from the cached group. -/
theorem handleChildF_noderef_clones (fuel : ℕ) (ctx : Ctx) (pm : Option ℕ)
    (pc pr : Bool) (cd : NodeData) (st : PState) (ks : List GObj)
    (st₂ : PState) (hwf : st.WF) (htype : cd.type = "noderef")
    (hfalsy : jsFalsyStr cd.nodeId = false)
    (h : handleChildF (createNode fuel ctx) pm pc pr cd st = some (ks, st₂)) :
    (∃ st1, createNode fuel ctx (cd.nodeId.getD "") pm pc pr st =
        some (none, st1) ∧ ks = []) ∨
    (∃ grp st1, createNode fuel ctx (cd.nodeId.getD "") pm pc pr st =
        some (some grp, st1) ∧
      ks = [clonedAttachment pm pc pr grp st1.ctr] ∧
      ∀ k ∈ ks, k.oid = st1.ctr ∧ grp.oid < st1.ctr ∧ k ≠ grp) := by
  rw [handleChildF, htype] at h
  rw [if_neg (by decide : ¬("noderef" : String) = "lod"),
    if_pos (rfl : ("noderef" : String) = "noderef"), hfalsy] at h
  simp only [Bool.false_eq_true, if_false] at h
  split at h
  · exact absurd h (by simp)
  · rename_i st1 heq
    simp only [Option.some.injEq, Prod.mk.injEq] at h
    exact Or.inl ⟨st1, heq, h.1.symm⟩
  · rename_i refNode st1 heq
    simp only [Option.some.injEq, Prod.mk.injEq] at h
    obtain ⟨new, hs⟩ :=
      createNode_steps fuel ctx (cd.nodeId.getD "") pm pc pr st _ st1 heq
    have hwf1 : st1.WF := hwf.ofSteps hs
    obtain ⟨hlook, _⟩ := createNode_cached heq
    have hltg : refNode.oid < st1.ctr :=
      hwf1.2.1 _ (lookupA_mem st1.nodes _ refNode hlook)
    cases pm with
    | none =>
      dsimp only at h
      refine Or.inr ⟨refNode, st1, heq, ?_, ?_⟩
      · rw [← h.1]
        rfl
      · intro k hk
        rw [← h.1] at hk
        rcases List.mem_singleton.mp hk with rfl
        have hko : (cloneObj refNode st1.ctr).1.oid = st1.ctr :=
          cloneObj_oid refNode st1.ctr
        refine ⟨hko, hltg, ?_⟩
        intro he
        rw [he] at hko
        rw [hko] at hltg
        exact absurd hltg (lt_irrefl _)
    | some mm =>
      dsimp only at h
      refine Or.inr ⟨refNode, st1, heq, ?_, ?_⟩
      · rw [← h.1]
        rfl
      · intro k hk
        rw [← h.1] at hk
        rcases List.mem_singleton.mp hk with rfl
        have hko : (applyMaterialToNode (cloneObj refNode st1.ctr).1 mm
            pc pr).oid = st1.ctr := by
          rw [applyMaterialToNode_oid]
          exact cloneObj_oid refNode st1.ctr
        refine ⟨hko, hltg, ?_⟩
        intro he
        rw [he] at hko
        rw [hko] at hltg
        exact absurd hltg (lt_irrefl _)

/-- Helper (C1 part c-LOD): the LOD-level loop attaches the objects
returned by `createNode` *as they are* — every level (beyond the incoming
accumulator) is literally a `createNode` result, not a clone of one. -/
theorem foldLodEntries_attaches_results
    {recm : String → PState → NodeRes} :
    ∀ (entries : List LodEntry) (acc : List (GObj × ℚ)) (st : PState)
      (levels : List (GObj × ℚ)) (st' : PState),
      foldLodEntries recm entries acc st = some (levels, st') →
      ∀ lv ∈ levels, lv ∈ acc ∨
        ∃ nid st0 st1, recm nid st0 = some (some lv.1, st1) := by
  intro entries
  induction entries with
  | nil =>
    intro acc st levels st' h lv hlv
    simp only [foldLodEntries, Option.some.injEq, Prod.mk.injEq] at h
    exact Or.inl (h.1 ▸ hlv)
  | cons e rest ih =>
    intro acc st levels st' h lv hlv
    simp only [foldLodEntries] at h
    split at h
    · split at h
      · exact ih _ _ _ _ h lv hlv
      · split at h
        · exact absurd h (by simp)
        · rename_i nid d heq2 heq1 hne x child st1 heq
          rcases ih _ _ _ _ h lv hlv with hmem | hres
          · rcases List.mem_append.mp hmem with hacc | hnew
            · exact Or.inl hacc
            · rcases List.mem_singleton.mp hnew with rfl
              exact Or.inr ⟨nid, st, st1, heq⟩
          · exact Or.inr hres
        · exact ih _ _ _ _ h lv hlv
    · exact ih _ _ _ _ h lv hlv

/-! ### C1 — memoization and clone semantics of `createNode` -/

/-- C1.  For every graph and `(nodeId, inherited material)` pair:
(a) once a call has built and cached the node group, a later call with the
same node id and the same parent material is a cache hit returning the
*identical* object with the state untouched; (b) a call with the same node
id but a different parent material returns a *distinct* instance (different
allocation identity); (c) only `noderef` expansion in `handleChild`
attaches a deep clone — the attached object is a freshly allocated clone
differing from the cached instance — while the LOD-level loop attaches the
`createNode` results themselves. -/
theorem createNode_cache_reference_semantics :
    (∀ (fuel fuel2 : ℕ) (ctx : Ctx) (nodeId : String) (m : Option ℕ)
      (c r c2 r2 : Bool) (st : PState) (grp : GObj) (st' : PState),
      createNode fuel ctx nodeId m c r st = some (some grp, st') →
      createNode (fuel2 + 1) ctx nodeId m c2 r2 st' = some (some grp, st')) ∧
    (∀ (fuel fuel2 : ℕ) (ctx : Ctx) (nodeId : String) (m m' : Option ℕ)
      (c r c' r' : Bool) (st : PState) (grp grp' : GObj) (st' st'' : PState),
      st.WF → m ≠ m' →
      createNode fuel ctx nodeId m c r st = some (some grp, st') →
      createNode fuel2 ctx nodeId m' c' r' st' = some (some grp', st'') →
      grp.oid ≠ grp'.oid ∧ grp ≠ grp') ∧
    (∀ (fuel : ℕ) (ctx : Ctx) (pm : Option ℕ) (pc pr : Bool) (cd : NodeData)
      (st : PState) (ks : List GObj) (st₂ : PState),
      st.WF → cd.type = "noderef" → jsFalsyStr cd.nodeId = false →
      handleChildF (createNode fuel ctx) pm pc pr cd st = some (ks, st₂) →
      (∃ st1, createNode fuel ctx (cd.nodeId.getD "") pm pc pr st =
          some (none, st1) ∧ ks = []) ∨
      (∃ grp st1, createNode fuel ctx (cd.nodeId.getD "") pm pc pr st =
          some (some grp, st1) ∧
        ks = [clonedAttachment pm pc pr grp st1.ctr] ∧
        ∀ k ∈ ks, k.oid = st1.ctr ∧ grp.oid < st1.ctr ∧ k ≠ grp)) ∧
    (∀ (fuel : ℕ) (ctx : Ctx) (pm : Option ℕ) (pc pr : Bool)
      (entries : List LodEntry) (acc : List (GObj × ℚ)) (st : PState)
      (levels : List (GObj × ℚ)) (st' : PState),
      foldLodEntries (fun nid s => createNode fuel ctx nid pm pc pr s)
        entries acc st = some (levels, st') →
      ∀ lv ∈ levels, lv ∈ acc ∨
        ∃ nid st0 st1, createNode fuel ctx nid pm pc pr st0 =
          some (some lv.1, st1)) := by
  refine ⟨?_, ?_, ?_, ?_⟩
  · intro fuel fuel2 ctx nodeId m c r c2 r2 st grp st' h
    exact createNode_second_call_same_key fuel fuel2 ctx nodeId m c r c2 r2
      st grp st' h
  · intro fuel fuel2 ctx nodeId m m' c r c' r' st grp grp' st' st'' hwf hm h1 h2
    exact createNode_other_material_distinct fuel fuel2 ctx nodeId m m' c r
      c' r' st grp grp' st' st'' hwf hm h1 h2
  · intro fuel ctx pm pc pr cd st ks st₂ hwf htype hfalsy h
    exact handleChildF_noderef_clones fuel ctx pm pc pr cd st ks st₂ hwf
      htype hfalsy h
  · intro fuel ctx pm pc pr entries acc st levels st' h
    exact foldLodEntries_attaches_results entries acc st levels st' h

/-- C1, witness for `createNode_cache_reference_semantics` on the one-node
graph `{"leaf": {}}`: (a) a repeated request with the same (null) material
returns the identical cached group `oid 0` and the identical state; (b) a
request with a different material builds the distinct instance `oid 1`;
(c) a `noderef` child attaches the clone `oid 1`, not the cached `oid 0`
instance, and the LOD loop attaches the cached result itself. -/
theorem createNode_cache_reference_semantics_witness :
    createNode 1 ⟨[("leaf", .mk "" none none none .undef .undef none none)], []⟩
        "leaf" none true true
        ⟨[("leaf", none)],
          [(("leaf", none), .group 0 {} none false false [])], 1⟩ =
      some (some (.group 0 {} none false false []),
        ⟨[("leaf", none)],
          [(("leaf", none), .group 0 {} none false false [])], 1⟩) ∧
    (GObj.group 0 {} none false false []).oid ≠
      (GObj.group 1 {} (some 7) false false []).oid ∧
    GObj.group 1 {} none false false [] ≠ GObj.group 0 {} none false false [] ∧
    (∃ nid st0 st1,
      createNode 2 ⟨[("leaf", .mk "" none none none .undef .undef none none)], []⟩
        nid none false false st0 =
      some (some (.group 0 {} none false false []), st1)) := by
  have hwf0 : PState.empty.WF := by
    refine ⟨rfl, ?_, ?_⟩ <;> simp [PState.empty]
  have hcall1 : createNode 2
      ⟨[("leaf", .mk "" none none none .undef .undef none none)], []⟩
      "leaf" none false false PState.empty =
      some (some (.group 0 {} none false false []),
        ⟨[("leaf", none)],
          [(("leaf", none), .group 0 {} none false false [])], 1⟩) := rfl
  refine ⟨?_, ?_, ?_, ?_⟩
  · exact createNode_cache_reference_semantics.1 2 0 _ "leaf" none false false
      true true PState.empty _ _ hcall1
  · have hcall2 : createNode 2
        ⟨[("leaf", .mk "" none none none .undef .undef none none)], []⟩
        "leaf" (some 7) false false
        ⟨[("leaf", none)],
          [(("leaf", none), .group 0 {} none false false [])], 1⟩ =
        some (some (.group 1 {} (some 7) false false []),
          ⟨[("leaf", some 7), ("leaf", none)],
            [(("leaf", some 7), .group 1 {} (some 7) false false []),
              (("leaf", none), .group 0 {} none false false [])], 2⟩) := rfl
    exact (createNode_cache_reference_semantics.2.1 2 2 _ "leaf" none (some 7)
      false false false false PState.empty _ _ _ _ hwf0 (by decide)
      hcall1 hcall2).1
  · have hhc : handleChildF
        (createNode 2 ⟨[("leaf", .mk "" none none none .undef .undef none none)], []⟩)
        none false false (.mk "noderef" (some "leaf") none none .undef .undef none none)
        PState.empty =
        some ([.group 1 {} none false false []],
          ⟨[("leaf", none)],
            [(("leaf", none), .group 0 {} none false false [])], 2⟩) := rfl
    rcases createNode_cache_reference_semantics.2.2.1 2
        ⟨[("leaf", .mk "" none none none .undef .undef none none)], []⟩
        none false false
        (.mk "noderef" (some "leaf") none none .undef .undef none none)
        PState.empty _ _ hwf0 rfl rfl hhc with
      ⟨st1, heq, _⟩ | ⟨grp, st1, heq, hks, hprops⟩
    · simp only [NodeData.nodeId, Option.getD] at heq
      rw [hcall1] at heq
      exact absurd heq (by simp)
    · simp only [NodeData.nodeId, Option.getD] at heq
      rw [hcall1] at heq
      simp only [Option.some.injEq, Prod.mk.injEq] at heq
      have hk := hprops (.group 1 {} none false false [])
        (List.mem_singleton.mpr rfl)
      rw [← heq.1] at hk
      exact hk.2.2
  · have hfold : foldLodEntries
        (fun nid s => createNode 2
          ⟨[("leaf", .mk "" none none none .undef .undef none none)], []⟩
          nid none false false s)
        [⟨some "leaf", some 5⟩] [] PState.empty =
        some ([(.group 0 {} none false false [], 5)],
          ⟨[("leaf", none)],
            [(("leaf", none), .group 0 {} none false false [])], 1⟩) := rfl
    rcases createNode_cache_reference_semantics.2.2.2 2 _ none false false
        [⟨some "leaf", some 5⟩] [] PState.empty _ _ hfold
        (.group 0 {} none false false [], 5) (by simp) with hmem | hres
    · exact absurd hmem (by simp)
    · exact hres

/-! ### Graph parser: termination on ranked (acyclic) reference graphs -/

/-- Helper: the LOD-level loop finishes whenever `createNode` finishes on
every target the loop recurses into. -/
theorem foldLodEntries_total {recm : String → PState → NodeRes} :
    ∀ (entries : List LodEntry),
      (∀ nid ∈ lodEntryTargets entries, ∀ st, recm nid st ≠ none) →
      ∀ (acc : List (GObj × ℚ)) (st : PState),
        foldLodEntries recm entries acc st ≠ none := by
  intro entries
  induction entries with
  | nil => intro _ acc st h; simp [foldLodEntries] at h
  | cons e rest ih =>
    intro htot acc st h
    have hrest : ∀ nid2 ∈ lodEntryTargets rest, ∀ st2,
        recm nid2 st2 ≠ none := by
      intro nid2 hn st2
      refine htot nid2 ?_ st2
      simp only [lodEntryTargets, List.mem_filterMap] at hn ⊢
      obtain ⟨a, ha, hfa⟩ := hn
      exact ⟨a, List.mem_cons_of_mem _ ha, hfa⟩
    simp only [foldLodEntries] at h
    split at h
    · rename_i nid d he1 he2
      split at h
      · exact ih hrest acc st h
      · rename_i hne
        have hmem : nid ∈ lodEntryTargets (e :: rest) := by
          simp only [lodEntryTargets, List.mem_filterMap]
          refine ⟨e, List.mem_cons_self _ _, ?_⟩
          rw [he1, he2]
          show (if nid = "" then none else some nid) = some nid
          exact if_neg hne
        rcases hr : recm nid st with _ | ⟨res, st1⟩
        · exact htot nid hmem st hr
        · rw [hr] at h
          cases res with
          | none => exact ih hrest _ _ h
          | some child => exact ih hrest _ _ h
    · exact ih hrest acc st h

/-- Helper: `createLOD` finishes whenever `createNode` finishes on every
target of its record. -/
theorem createLODF_total {rec : RecFn} (pm : Option ℕ) (pc pr : Bool)
    (ld : Option NodeData)
    (htot : ∀ nid ∈ lodDataTargets ld, ∀ m c r st, rec nid m c r st ≠ none) :
    ∀ st, createLODF rec pm pc pr ld st ≠ none := by
  intro st h
  match ld with
  | none => simp [createLODF] at h
  | some ldd =>
    simp only [createLODF] at h
    split at h
    · simp at h
    · rename_i entries hln
      split at h
      · rename_i heq
        refine foldLodEntries_total entries ?_ [] _ heq
        intro nid hn st2
        exact htot nid (by simp [lodDataTargets, hln]; exact hn) pm pc pr st2
      · simp at h

/-- Helper: `handleChild` finishes whenever `createNode` finishes on every
target of the child record. -/
theorem handleChildF_total {rec : RecFn} (pm : Option ℕ) (pc pr : Bool)
    (cd : NodeData)
    (htot : ∀ nid ∈ childTargets cd, ∀ m c r st, rec nid m c r st ≠ none) :
    ∀ st, handleChildF rec pm pc pr cd st ≠ none := by
  intro st h
  simp only [handleChildF] at h
  by_cases hlod : cd.type = "lod"
  · rw [if_pos hlod] at h
    rcases hc : createLODF rec pm pc pr (some cd) st with _ | ⟨res, st1⟩
    · refine createLODF_total pm pc pr (some cd) ?_ st hc
      intro nid hn m c r st2
      refine htot nid ?_ m c r st2
      simp only [childTargets, if_pos hlod]
      simpa [lodDataTargets] using hn
    · rw [hc] at h
      cases res <;> exact Option.noConfusion h
  · rw [if_neg hlod] at h
    by_cases hnr : cd.type = "noderef"
    · rw [if_pos hnr] at h
      by_cases hf : jsFalsyStr cd.nodeId
      · rw [if_pos hf] at h
        exact Option.noConfusion h
      · rw [if_neg hf] at h
        rcases hr : rec (cd.nodeId.getD "") pm pc pr st with _ | ⟨res, st1⟩
        · refine htot (cd.nodeId.getD "") ?_ pm pc pr st hr
          rcases hni : cd.nodeId with _ | nid
          · rw [hni] at hf
            simp [jsFalsyStr] at hf
          · have hne : nid ≠ "" := by
              intro he
              rw [hni, he] at hf
              simp [jsFalsyStr] at hf
            simp only [childTargets, if_neg hlod, if_pos hnr, hni, if_neg hne,
              hni, Option.getD_some]
            exact List.mem_singleton.mpr rfl
        · rw [hr] at h
          cases res <;> exact Option.noConfusion h
    · rw [if_neg hnr] at h
      by_cases hp : cd.type ∈ primTypes
      · rw [if_pos hp] at h
        exact Option.noConfusion h
      · rw [if_neg hp] at h
        by_cases hl : cd.type ∈ lightTypes
        · rw [if_pos hl] at h
          exact Option.noConfusion h
        · rw [if_neg hl] at h
          exact Option.noConfusion h

/-- Helper: the child fold finishes when each child's handler finishes. -/
theorem foldHandleChildren_total
    {hc : NodeData → PState → Option (List GObj × PState)} :
    ∀ (cds : List NodeData),
      (∀ cd ∈ cds, ∀ st, hc cd st ≠ none) →
      ∀ (acc : List GObj) (st : PState),
        foldHandleChildren hc cds acc st ≠ none := by
  intro cds
  induction cds with
  | nil => intro _ acc st h; simp [foldHandleChildren] at h
  | cons cd rest ih =>
    intro htot acc st h
    simp only [foldHandleChildren] at h
    rcases hr : hc cd st with _ | ⟨ks, st1⟩
    · exact htot cd (List.mem_cons_self _ _) st hr
    · rw [hr] at h
      exact ih (fun cd2 hn st2 => htot cd2 (List.mem_cons_of_mem _ hn) st2)
        _ _ h

/-- Helper: the `lodsList` fold finishes when each record's `createLOD`
finishes. -/
theorem foldLodsList_total {cl : Option NodeData → PState → NodeRes}
    (graph : List (String × NodeData)) :
    ∀ (lids : List String),
      (∀ lid ∈ lids, ∀ st, cl (lookupA graph lid) st ≠ none) →
      ∀ (acc : List GObj) (st : PState),
        foldLodsList cl graph lids acc st ≠ none := by
  intro lids
  induction lids with
  | nil => intro _ acc st h; simp [foldLodsList] at h
  | cons lid rest ih =>
    intro htot acc st h
    simp only [foldLodsList] at h
    rcases hr : cl (lookupA graph lid) st with _ | ⟨res, st1⟩
    · exact htot lid (List.mem_cons_self _ _) st hr
    · rw [hr] at h
      have hrest : ∀ l2 ∈ rest, ∀ s, cl (lookupA graph l2) s ≠ none :=
        fun l2 hn s => htot l2 (List.mem_cons_of_mem _ hn) s
      cases res with
      | none => exact ih hrest _ _ h
      | some l => exact ih hrest _ _ h

/-- The targets of the implicit noderef record for a `nodesList` entry. -/
theorem childTargets_mkNoderefData (nid : String) :
    childTargets (mkNoderefData nid) = if nid = "" then [] else [nid] := rfl

/-- On a reference graph admitting a rank function that strictly decreases
along every node-reference edge (an acyclic graph), `createNode` terminates:
any fuel above the start node's rank is enough, so the recursion never runs
out. -/
theorem createNode_total_of_rank (ctx : Ctx) (rank : String → ℕ)
    (hrank : ∀ u v, v ∈ edgeTargets ctx.graph u → rank v < rank u) :
    ∀ (fuel : ℕ) (nodeId : String), rank nodeId < fuel →
      ∀ (m : Option ℕ) (c r : Bool) (st : PState),
        createNode fuel ctx nodeId m c r st ≠ none := by
  intro fuel
  induction fuel with
  | zero => intro nodeId hlt; exact absurd hlt (Nat.not_lt_zero _)
  | succ fuel ih =>
    intro nodeId hlt m c r st h
    have hfe : rank nodeId ≤ fuel := Nat.lt_succ_iff.mp hlt
    simp only [createNode] at h
    split at h
    · exact Option.noConfusion h
    · split at h
      · exact Option.noConfusion h
      · rename_i nodeData hlook
        split at h
        · rename_i heq
          rcases hkr : nodeData.children with _ | ch
          · rw [hkr] at heq
            exact Option.noConfusion heq
          · rw [hkr] at heq
            simp only at heq
            split at heq
            · rename_i hd1
              refine foldHandleChildren_total _ ?_ [] _ hd1
              intro cd hcd st2
              refine handleChildF_total _ _ _ cd ?_ st2
              intro nid hnid m' c' r' s'
              have hmem : nid ∈ edgeTargets ctx.graph nodeId := by
                simp only [edgeTargets, hlook, hkr]
                refine List.mem_append.mpr
                  (Or.inl (List.mem_append.mpr (Or.inl ?_)))
                exact List.mem_flatten.mpr
                  ⟨childTargets cd, List.mem_map_of_mem _ hcd, hnid⟩
              exact ih nid (lt_of_lt_of_le (hrank nodeId nid hmem) hfe)
                m' c' r' s'
            · rename_i ks1 stA hd1
              split at heq
              · rename_i hd2
                refine foldHandleChildren_total _ ?_ ks1 stA hd2
                intro cd hcd st2
                rw [List.mem_map] at hcd
                obtain ⟨nid0, hn0, rfl⟩ := hcd
                refine handleChildF_total _ _ _ _ ?_ st2
                intro nid hnid m' c' r' s'
                rw [childTargets_mkNoderefData] at hnid
                by_cases h0 : nid0 = ""
                · rw [if_pos h0] at hnid
                  exact absurd hnid (List.not_mem_nil _)
                · rw [if_neg h0] at hnid
                  rw [List.mem_singleton] at hnid
                  subst hnid
                  have hmem : nid ∈ edgeTargets ctx.graph nodeId := by
                    simp only [edgeTargets, hlook, hkr]
                    refine List.mem_append.mpr
                      (Or.inl (List.mem_append.mpr (Or.inr ?_)))
                    exact List.mem_filter.mpr ⟨hn0, by simp [h0]⟩
                  exact ih nid (lt_of_lt_of_le (hrank nodeId nid hmem) hfe)
                    m' c' r' s'
              · rename_i ks2 stB hd2
                refine foldLodsList_total ctx.graph _ ?_ ks2 stB heq
                intro lid hlid st2
                refine createLODF_total _ _ _ _ ?_ st2
                intro nid hnid m' c' r' s'
                have hmem : nid ∈ edgeTargets ctx.graph nodeId := by
                  simp only [edgeTargets, hlook, hkr]
                  refine List.mem_append.mpr (Or.inr ?_)
                  exact List.mem_flatten.mpr
                    ⟨_, List.mem_map_of_mem _ hlid, hnid⟩
                exact ih nid (lt_of_lt_of_le (hrank nodeId nid hmem) hfe)
                  m' c' r' s'
        · exact Option.noConfusion h

/-! ### Graph parser: nontermination on cyclic reference graphs -/

/-- Helper: the LOD-level loop preserves the cycle invariant when each
recursive call does. -/
theorem foldLodEntries_inv {recm : String → PState → NodeRes} {C : List String}
    (hpres : ∀ nid st res st', InvC C st → recm nid st = some (res, st') →
      InvC C st') :
    ∀ (entries : List LodEntry) (acc : List (GObj × ℚ)) (st : PState)
      (levels : List (GObj × ℚ)) (st' : PState), InvC C st →
      foldLodEntries recm entries acc st = some (levels, st') →
      InvC C st' := by
  intro entries
  induction entries with
  | nil =>
    intro acc st levels st' hI h
    simp only [foldLodEntries, Option.some.injEq, Prod.mk.injEq] at h
    rw [← h.2]
    exact hI
  | cons e rest ih =>
    intro acc st levels st' hI h
    simp only [foldLodEntries] at h
    split at h
    · rename_i nid d he1 he2
      split at h
      · exact ih acc st levels st' hI h
      · rcases hr : recm nid st with _ | ⟨res, st1⟩
        · rw [hr] at h
          exact Option.noConfusion h
        · rw [hr] at h
          have hI1 : InvC C st1 := hpres nid st res st1 hI hr
          cases res with
          | none => exact ih _ _ _ _ hI1 h
          | some child => exact ih _ _ _ _ hI1 h
    · exact ih acc st levels st' hI h

/-- Helper: `createLOD` preserves the cycle invariant when `createNode`
does. -/
theorem createLODF_inv {rec : RecFn} {C : List String} (pm : Option ℕ)
    (pc pr : Bool)
    (hpres : ∀ nid m c r st res st', InvC C st →
      rec nid m c r st = some (res, st') → InvC C st') :
    ∀ (ld : Option NodeData) (st : PState) (res : Option GObj) (st' : PState),
      InvC C st → createLODF rec pm pc pr ld st = some (res, st') →
      InvC C st' := by
  intro ld st res st' hI h
  match ld with
  | none =>
    simp only [createLODF, Option.some.injEq, Prod.mk.injEq] at h
    rw [← h.2]
    exact hI
  | some ldd =>
    simp only [createLODF] at h
    split at h
    · simp only [Option.some.injEq, Prod.mk.injEq] at h
      rw [← h.2]
      exact hI
    · rename_i entries hln
      split at h
      · exact Option.noConfusion h
      · rename_i levels st2 hfe
        simp only [Option.some.injEq, Prod.mk.injEq] at h
        rw [← h.2]
        refine foldLodEntries_inv ?_ entries []
          { st with ctr := st.ctr + 1 } levels st2 hI hfe
        intro nid s rr s' hIs hrr
        exact hpres nid pm pc pr s rr s' hIs hrr

/-- Helper: `handleChild` preserves the cycle invariant when `createNode`
does (the clone and the fresh meshes/lights only move the allocation
counter, never the cache). -/
theorem handleChildF_inv {rec : RecFn} {C : List String} (pm : Option ℕ)
    (pc pr : Bool)
    (hpres : ∀ nid m c r st res st', InvC C st →
      rec nid m c r st = some (res, st') → InvC C st') :
    ∀ (cd : NodeData) (st : PState) (ks : List GObj) (st' : PState),
      InvC C st → handleChildF rec pm pc pr cd st = some (ks, st') →
      InvC C st' := by
  intro cd st ks st' hI h
  simp only [handleChildF] at h
  by_cases hlod : cd.type = "lod"
  · rw [if_pos hlod] at h
    rcases hc : createLODF rec pm pc pr (some cd) st with _ | ⟨res, st1⟩
    · rw [hc] at h
      exact Option.noConfusion h
    · rw [hc] at h
      have hI1 := createLODF_inv pm pc pr hpres (some cd) st res st1 hI hc
      cases res with
      | none =>
        simp only [Option.some.injEq, Prod.mk.injEq] at h
        rw [← h.2]
        exact hI1
      | some l =>
        simp only [Option.some.injEq, Prod.mk.injEq] at h
        rw [← h.2]
        exact hI1
  · rw [if_neg hlod] at h
    by_cases hnr : cd.type = "noderef"
    · rw [if_pos hnr] at h
      by_cases hf : jsFalsyStr cd.nodeId
      · rw [if_pos hf] at h
        simp only [Option.some.injEq, Prod.mk.injEq] at h
        rw [← h.2]
        exact hI
      · rw [if_neg hf] at h
        rcases hr : rec (cd.nodeId.getD "") pm pc pr st with _ | ⟨res, st1⟩
        · rw [hr] at h
          exact Option.noConfusion h
        · rw [hr] at h
          have hI1 := hpres _ pm pc pr st res st1 hI hr
          cases res with
          | none =>
            simp only [Option.some.injEq, Prod.mk.injEq] at h
            rw [← h.2]
            exact hI1
          | some g =>
            simp only [Option.some.injEq, Prod.mk.injEq] at h
            rw [← h.2]
            exact hI1
    · rw [if_neg hnr] at h
      by_cases hp : cd.type ∈ primTypes
      · rw [if_pos hp] at h
        simp only [Option.some.injEq, Prod.mk.injEq] at h
        rw [← h.2]
        exact hI
      · rw [if_neg hp] at h
        by_cases hl : cd.type ∈ lightTypes
        · rw [if_pos hl] at h
          simp only [Option.some.injEq, Prod.mk.injEq] at h
          rw [← h.2]
          exact hI
        · rw [if_neg hl] at h
          simp only [Option.some.injEq, Prod.mk.injEq] at h
          rw [← h.2]
          exact hI

/-- Helper: the child fold preserves the cycle invariant when each child's
handler does. -/
theorem foldHandleChildren_inv
    {hc : NodeData → PState → Option (List GObj × PState)} {C : List String}
    (hcpres : ∀ cd st ks st', InvC C st → hc cd st = some (ks, st') →
      InvC C st') :
    ∀ (cds : List NodeData) (acc : List GObj) (st : PState) (ks : List GObj)
      (st' : PState), InvC C st →
      foldHandleChildren hc cds acc st = some (ks, st') → InvC C st' := by
  intro cds
  induction cds with
  | nil =>
    intro acc st ks st' hI h
    simp only [foldHandleChildren, Option.some.injEq, Prod.mk.injEq] at h
    rw [← h.2]
    exact hI
  | cons cd rest ih =>
    intro acc st ks st' hI h
    simp only [foldHandleChildren] at h
    rcases hr : hc cd st with _ | ⟨ks1, st1⟩
    · rw [hr] at h
      exact Option.noConfusion h
    · rw [hr] at h
      exact ih _ _ _ _ (hcpres cd st ks1 st1 hI hr) h

/-- Helper: the `lodsList` fold preserves the cycle invariant when each
record's `createLOD` does. -/
theorem foldLodsList_inv {cl : Option NodeData → PState → NodeRes}
    {C : List String} (graph : List (String × NodeData))
    (clpres : ∀ ld st res st', InvC C st → cl ld st = some (res, st') →
      InvC C st') :
    ∀ (lids : List String) (acc : List GObj) (st : PState) (ks : List GObj)
      (st' : PState), InvC C st →
      foldLodsList cl graph lids acc st = some (ks, st') → InvC C st' := by
  intro lids
  induction lids with
  | nil =>
    intro acc st ks st' hI h
    simp only [foldLodsList, Option.some.injEq, Prod.mk.injEq] at h
    rw [← h.2]
    exact hI
  | cons lid rest ih =>
    intro acc st ks st' hI h
    simp only [foldLodsList] at h
    rcases hr : cl (lookupA graph lid) st with _ | ⟨res, st1⟩
    · rw [hr] at h
      exact Option.noConfusion h
    · rw [hr] at h
      have hI1 := clpres _ st res st1 hI hr
      cases res with
      | none => exact ih _ _ _ _ hI1 h
      | some l => exact ih _ _ _ _ hI1 h

/-- Helper: a target of a `lodNodes` list comes either from its head entry
(valid id and distance) or from the tail. -/
theorem lodEntryTargets_mem_rest {w : String} {e : LodEntry}
    {rest : List LodEntry} (hw : w ∈ lodEntryTargets (e :: rest)) :
    (∃ d, e.nodeId = some w ∧ e.mindist = some d ∧ w ≠ "") ∨
      w ∈ lodEntryTargets rest := by
  simp only [lodEntryTargets, List.mem_filterMap] at hw
  obtain ⟨a, ha, hfa⟩ := hw
  rcases List.mem_cons.mp ha with rfl | ha2
  · left
    rcases he1 : a.nodeId with _ | nid <;> rcases he2 : a.mindist with _ | d <;>
      rw [he1, he2] at hfa
    · exact Option.noConfusion hfa
    · exact Option.noConfusion hfa
    · exact Option.noConfusion hfa
    · have hfa' : (if nid = "" then (none : Option String) else some nid) =
        some w := hfa
      by_cases h0 : nid = ""
      · rw [if_pos h0] at hfa'
        exact Option.noConfusion hfa'
      · rw [if_neg h0] at hfa'
        have hnw : nid = w := Option.some.inj hfa'
        subst hnw
        exact ⟨d, rfl, rfl, h0⟩
  · right
    exact List.mem_filterMap.mpr ⟨a, ha2, hfa⟩

/-- Helper: when the LOD-level loop finishes while the invariant holds, no
level target lies on the cycle (a cycle call would have returned `null` fuel
exhaustion and aborted the loop). -/
theorem foldLodEntries_noC {recm : String → PState → NodeRes} {C : List String}
    (hnone : ∀ nid ∈ C, ∀ st, InvC C st → recm nid st = none)
    (hpres : ∀ nid st res st', InvC C st → recm nid st = some (res, st') →
      InvC C st') :
    ∀ (entries : List LodEntry) (acc : List (GObj × ℚ)) (st : PState)
      (levels : List (GObj × ℚ)) (st' : PState), InvC C st →
      foldLodEntries recm entries acc st = some (levels, st') →
      ∀ w ∈ lodEntryTargets entries, w ∉ C := by
  intro entries
  induction entries with
  | nil =>
    intro acc st levels st' hI h w hw
    simp [lodEntryTargets] at hw
  | cons e rest ih =>
    intro acc st levels st' hI h w hw hwC
    rcases lodEntryTargets_mem_rest hw with ⟨d, he1, he2, h0⟩ | hrest
    · simp only [foldLodEntries] at h
      rw [he1, he2] at h
      have h' : (if w = "" then foldLodEntries recm rest acc st
          else
            match recm w st with
            | none => none
            | some (some child, st1) =>
                foldLodEntries recm rest (acc ++ [(child, d)]) st1
            | some (none, st1) => foldLodEntries recm rest acc st1) =
          some (levels, st') := h
      rw [if_neg h0, hnone w hwC st hI] at h'
      exact Option.noConfusion h'
    · simp only [foldLodEntries] at h
      split at h
      · rename_i nid d he1 he2
        split at h
        · exact ih _ _ _ _ hI h w hrest hwC
        · rcases hr : recm nid st with _ | ⟨res, st1⟩
          · rw [hr] at h
            exact Option.noConfusion h
          · rw [hr] at h
            have hI1 := hpres nid st res st1 hI hr
            cases res with
            | none => exact ih _ _ _ _ hI1 h w hrest hwC
            | some child => exact ih _ _ _ _ hI1 h w hrest hwC
      · exact ih _ _ _ _ hI h w hrest hwC

/-- Helper: when `createLOD` finishes while the invariant holds, no target
of its record lies on the cycle. -/
theorem createLODF_noC {rec : RecFn} {C : List String} (pm : Option ℕ)
    (pc pr : Bool)
    (hnone : ∀ nid ∈ C, ∀ m c r st, InvC C st → rec nid m c r st = none)
    (hpres : ∀ nid m c r st res st', InvC C st →
      rec nid m c r st = some (res, st') → InvC C st') :
    ∀ (ld : Option NodeData) (st : PState) (res : Option GObj) (st' : PState),
      InvC C st → createLODF rec pm pc pr ld st = some (res, st') →
      ∀ w ∈ lodDataTargets ld, w ∉ C := by
  intro ld st res st' hI h w hw hwC
  match ld with
  | none => simp [lodDataTargets] at hw
  | some ldd =>
    simp only [createLODF] at h
    split at h
    · rename_i hln
      simp only [lodDataTargets] at hw
      rw [hln] at hw
      exact absurd hw (List.not_mem_nil _)
    · rename_i entries hln
      split at h
      · exact Option.noConfusion h
      · rename_i levels st2 hfe
        have hw' : w ∈ lodEntryTargets entries := by
          simp only [lodDataTargets] at hw
          rw [hln] at hw
          exact hw
        exact foldLodEntries_noC
          (fun nid hn s hIs => hnone nid hn pm pc pr s hIs)
          (fun nid s rr s' hIs hrr => hpres nid pm pc pr s rr s' hIs hrr)
          entries [] { st with ctr := st.ctr + 1 } levels st2 hI hfe w hw' hwC

/-- Helper: when `handleChild` finishes while the invariant holds, no target
of the child record lies on the cycle. -/
theorem handleChildF_noC {rec : RecFn} {C : List String} (pm : Option ℕ)
    (pc pr : Bool)
    (hnone : ∀ nid ∈ C, ∀ m c r st, InvC C st → rec nid m c r st = none)
    (hpres : ∀ nid m c r st res st', InvC C st →
      rec nid m c r st = some (res, st') → InvC C st') :
    ∀ (cd : NodeData) (st : PState) (ks : List GObj) (st' : PState),
      InvC C st → handleChildF rec pm pc pr cd st = some (ks, st') →
      ∀ w ∈ childTargets cd, w ∉ C := by
  intro cd st ks st' hI h w hw hwC
  simp only [handleChildF] at h
  by_cases hlod : cd.type = "lod"
  · rw [if_pos hlod] at h
    rcases hc : createLODF rec pm pc pr (some cd) st with _ | ⟨res, st1⟩
    · rw [hc] at h
      exact Option.noConfusion h
    · refine createLODF_noC pm pc pr hnone hpres (some cd) st res st1 hI hc
        w ?_ hwC
      simp only [childTargets, if_pos hlod] at hw
      simpa [lodDataTargets] using hw
  · rw [if_neg hlod] at h
    by_cases hnr : cd.type = "noderef"
    · rw [if_pos hnr] at h
      simp only [childTargets, if_neg hlod, if_pos hnr] at hw
      rcases hni : cd.nodeId with _ | nid
      · rw [hni] at hw
        exact absurd hw (List.not_mem_nil _)
      · rw [hni] at hw
        have hw' : w ∈ (if nid = "" then ([] : List String) else [nid]) := hw
        by_cases h0 : nid = ""
        · rw [if_pos h0] at hw'
          exact absurd hw' (List.not_mem_nil _)
        · rw [if_neg h0] at hw'
          have hnw : w = nid := List.mem_singleton.mp hw'
          subst hnw
          have hf : ¬ jsFalsyStr cd.nodeId := by
            rw [hni]
            simp [jsFalsyStr, h0]
          rw [if_neg hf] at h
          have hg : cd.nodeId.getD "" = w := by
            rw [hni]
            rfl
          rw [hg, hnone w hwC pm pc pr st hI] at h
          exact Option.noConfusion h
    · rw [if_neg hnr] at h
      simp only [childTargets, if_neg hlod, if_neg hnr] at hw
      exact absurd hw (List.not_mem_nil _)

/-- Helper: when the child fold finishes while the invariant holds, no
target of any of its child records lies on the cycle. -/
theorem foldHandleChildren_noC
    {hc : NodeData → PState → Option (List GObj × PState)} {C : List String}
    (hcpres : ∀ cd st ks st', InvC C st → hc cd st = some (ks, st') →
      InvC C st')
    (hcnoC : ∀ cd st ks st', InvC C st → hc cd st = some (ks, st') →
      ∀ w ∈ childTargets cd, w ∉ C) :
    ∀ (cds : List NodeData) (acc : List GObj) (st : PState) (ks : List GObj)
      (st' : PState), InvC C st →
      foldHandleChildren hc cds acc st = some (ks, st') →
      ∀ cd ∈ cds, ∀ w ∈ childTargets cd, w ∉ C := by
  intro cds
  induction cds with
  | nil =>
    intro acc st ks st' hI h cd hcd
    exact absurd hcd (List.not_mem_nil _)
  | cons cd0 rest ih =>
    intro acc st ks st' hI h cd hcd w hw hwC
    simp only [foldHandleChildren] at h
    rcases hr : hc cd0 st with _ | ⟨ks1, st1⟩
    · rw [hr] at h
      exact Option.noConfusion h
    · rw [hr] at h
      rcases List.mem_cons.mp hcd with rfl | hcd2
      · exact hcnoC cd st ks1 st1 hI hr w hw hwC
      · exact ih _ _ _ _ (hcpres cd0 st ks1 st1 hI hr) h cd hcd2 w hw hwC

/-- Helper: when the `lodsList` fold finishes while the invariant holds, no
target of any referenced LOD record lies on the cycle. -/
theorem foldLodsList_noC {cl : Option NodeData → PState → NodeRes}
    {C : List String} (graph : List (String × NodeData))
    (clpres : ∀ ld st res st', InvC C st → cl ld st = some (res, st') →
      InvC C st')
    (clnoC : ∀ ld st res st', InvC C st → cl ld st = some (res, st') →
      ∀ w ∈ lodDataTargets ld, w ∉ C) :
    ∀ (lids : List String) (acc : List GObj) (st : PState) (ks : List GObj)
      (st' : PState), InvC C st →
      foldLodsList cl graph lids acc st = some (ks, st') →
      ∀ lid ∈ lids, ∀ w ∈ lodDataTargets (lookupA graph lid), w ∉ C := by
  intro lids
  induction lids with
  | nil =>
    intro acc st ks st' hI h lid hlid
    exact absurd hlid (List.not_mem_nil _)
  | cons lid0 rest ih =>
    intro acc st ks st' hI h lid hlid w hw hwC
    simp only [foldLodsList] at h
    rcases hr : cl (lookupA graph lid0) st with _ | ⟨res, st1⟩
    · rw [hr] at h
      exact Option.noConfusion h
    · rw [hr] at h
      have hI1 := clpres _ st res st1 hI hr
      rcases List.mem_cons.mp hlid with rfl | hlid2
      · exact clnoC _ st res st1 hI hr w hw hwC
      · cases res with
        | none => exact ih _ _ _ _ hI1 h lid hlid2 w hw hwC
        | some l => exact ih _ _ _ _ hI1 h lid hlid2 w hw hwC

/-- On a cyclic reference graph, `createNode` is jointly starved and
invariant-preserving: for every fuel bound, a call on a cycle node returns
`none` (fuel exhaustion — the recursion never bottoms out), and any finished
call never caches a cycle node's key. -/
theorem createNode_cycle_aux (ctx : Ctx) (C : List String)
    (hC : ∀ v ∈ C, ∃ w ∈ edgeTargets ctx.graph v, w ∈ C) :
    ∀ fuel : ℕ,
      (∀ v ∈ C, ∀ m c r st, InvC C st →
        createNode fuel ctx v m c r st = none) ∧
      (∀ v m c r st res st', InvC C st →
        createNode fuel ctx v m c r st = some (res, st') → InvC C st') := by
  intro fuel
  induction fuel with
  | zero =>
    refine ⟨fun v hv m c r st hI => rfl, fun v m c r st res st' hI h => ?_⟩
    exact absurd h (by simp [createNode])
  | succ fuel ih =>
    obtain ⟨ihA, ihB⟩ := ih
    have hpres : ∀ nid m c r st res st', InvC C st →
        createNode fuel ctx nid m c r st = some (res, st') → InvC C st' :=
      fun nid m c r st res st' hI h => ihB nid m c r st res st' hI h
    have hnone : ∀ nid ∈ C, ∀ m c r st, InvC C st →
        createNode fuel ctx nid m c r st = none :=
      fun nid hn m c r st hI => ihA nid hn m c r st hI
    have hA : ∀ v ∈ C, ∀ m c r st, InvC C st →
        createNode (fuel + 1) ctx v m c r st = none := by
      intro v hv m c r st hI
      rcases hres : createNode (fuel + 1) ctx v m c r st with _ | ⟨res, st'⟩
      · rfl
      · exfalso
        obtain ⟨w, hw, hwC⟩ := hC v hv
        simp only [createNode] at hres
        split at hres
        · rename_i hmem
          exact hI v hv m hmem
        · split at hres
          · rename_i hlook
            simp [edgeTargets, hlook] at hw
          · rename_i nodeData hlook
            split at hres
            · exact Option.noConfusion hres
            · rename_i kids st2 heq
              rcases hkr : nodeData.children with _ | ch
              · simp [edgeTargets, hlook, hkr] at hw
              · rw [hkr] at heq
                simp only at heq
                split at heq
                · exact Option.noConfusion heq
                · rename_i ks1 stA hd1
                  split at heq
                  · exact Option.noConfusion heq
                  · rename_i ks2 stB hd2
                    have hIA : InvC C stA := foldHandleChildren_inv
                      (handleChildF_inv _ _ _ hpres) _ _ _ _ _ (by exact hI)
                      hd1
                    have hIB : InvC C stB := foldHandleChildren_inv
                      (handleChildF_inv _ _ _ hpres) _ _ _ _ _ (by exact hIA)
                      hd2
                    simp only [edgeTargets, hlook, hkr] at hw
                    rcases List.mem_append.mp hw with hw12 | hw3
                    · rcases List.mem_append.mp hw12 with hw1 | hw2
                      · rw [List.mem_flatten] at hw1
                        obtain ⟨l, hl, hwl⟩ := hw1
                        rw [List.mem_map] at hl
                        obtain ⟨cd, hcd, rfl⟩ := hl
                        exact foldHandleChildren_noC
                          (handleChildF_inv _ _ _ hpres)
                          (handleChildF_noC _ _ _ hnone hpres) _ _ _ _ _
                          (by exact hI) hd1 cd hcd w hwl hwC
                      · rw [List.mem_filter] at hw2
                        obtain ⟨hn0, hne⟩ := hw2
                        have hcd : mkNoderefData w ∈
                            (ch.nodesList.getD []).map mkNoderefData :=
                          List.mem_map_of_mem _ hn0
                        have hwt : w ∈ childTargets (mkNoderefData w) := by
                          rw [childTargets_mkNoderefData,
                            if_neg (by simpa using hne)]
                          exact List.mem_singleton.mpr rfl
                        exact foldHandleChildren_noC
                          (handleChildF_inv _ _ _ hpres)
                          (handleChildF_noC _ _ _ hnone hpres) _ _ _ _ _
                          (by exact hIA) hd2 _ hcd w hwt hwC
                    · rw [List.mem_flatten] at hw3
                      obtain ⟨l, hl, hwl⟩ := hw3
                      rw [List.mem_map] at hl
                      obtain ⟨lid, hlid, rfl⟩ := hl
                      exact foldLodsList_noC ctx.graph
                        (createLODF_inv _ _ _ hpres)
                        (createLODF_noC _ _ _ hnone hpres) _ _ _ _ _
                        (by exact hIB) heq lid hlid w hwl hwC
    refine ⟨hA, ?_⟩
    intro v m c r st res st' hI h
    by_cases hv : v ∈ C
    · rw [hA v hv m c r st hI] at h
      exact Option.noConfusion h
    · simp only [createNode] at h
      split at h
      · simp only [Option.some.injEq, Prod.mk.injEq] at h
        rw [← h.2]
        exact hI
      · split at h
        · simp only [Option.some.injEq, Prod.mk.injEq] at h
          rw [← h.2]
          exact hI
        · rename_i nodeData hlook
          split at h
          · exact Option.noConfusion h
          · rename_i kids st2 heq
            simp only [Option.some.injEq, Prod.mk.injEq] at h
            have hI2 : InvC C st2 := by
              rcases hkr : nodeData.children with _ | ch
              · rw [hkr] at heq
                simp only [Option.some.injEq, Prod.mk.injEq] at heq
                rw [← heq.2]
                exact hI
              · rw [hkr] at heq
                simp only at heq
                split at heq
                · exact Option.noConfusion heq
                · rename_i ks1 stA hd1
                  split at heq
                  · exact Option.noConfusion heq
                  · rename_i ks2 stB hd2
                    have hIA2 : InvC C stA := foldHandleChildren_inv
                      (handleChildF_inv _ _ _ hpres) _ _ _ _ _ (by exact hI)
                      hd1
                    have hIB2 : InvC C stB := foldHandleChildren_inv
                      (handleChildF_inv _ _ _ hpres) _ _ _ _ _ (by exact hIA2)
                      hd2
                    exact foldLodsList_inv ctx.graph
                      (createLODF_inv _ _ _ hpres) _ _ _ _ _ (by exact hIB2)
                      heq
            rw [← h.2]
            intro u hu m' hmem
            rcases List.mem_cons.mp hmem with heqk | hmem2
            · have huv : u = v := congrArg Prod.fst heqk
              exact hv (huv ▸ hu)
            · exact hI2 u hu m' hmem2

/-- C10.  `createNode` writes its memoization entry for a
`(nodeId, material)` cache key only after all of that node's children
(direct children, `nodesList` noderefs, and LOD levels) have been fully
expanded, so the cache never acts as a visited-marker during recursion:

* (a) for a fresh (uncached) build that returns a group, the key's cache
  entry is the *most recent* write of the whole call — it heads both the
  prepend-ordered `nodes` table and `processedNodes` of the final state, so
  it was written after every entry cached while expanding the children;
* (b) on a reference graph admitting a rank strictly decreasing along every
  node-reference edge (an acyclic reachable reference relation), the
  recursion terminates: any recursion-depth budget above the start node's
  rank is never exhausted;
* (c) on a cycle — a set of nodes each referencing the set again through
  its `noderef`/`nodesList`/`lodsList` edges, none yet cached — the
  recursion is unbounded: *every* depth budget is exhausted. -/
theorem createNode_postorder_cache_and_termination :
    (∀ (fuel : ℕ) (ctx : Ctx) (nodeId : String) (m : Option ℕ) (c r : Bool)
      (st : PState) (grp : GObj) (st' : PState),
      ((nodeId, m) : CacheKey) ∉ st.processed →
      createNode fuel ctx nodeId m c r st = some (some grp, st') →
      (∃ rest, st'.nodes = ((nodeId, m), grp) :: rest) ∧
      (∃ restP, st'.processed = (nodeId, m) :: restP)) ∧
    (∀ (ctx : Ctx) (rank : String → ℕ),
      (∀ u v, v ∈ edgeTargets ctx.graph u → rank v < rank u) →
      ∀ (fuel : ℕ) (nodeId : String), rank nodeId < fuel →
      ∀ (m : Option ℕ) (c r : Bool) (st : PState),
      createNode fuel ctx nodeId m c r st ≠ none) ∧
    (∀ (ctx : Ctx) (C : List String),
      (∀ v ∈ C, ∃ w ∈ edgeTargets ctx.graph v, w ∈ C) →
      ∀ v ∈ C, ∀ (fuel : ℕ) (m : Option ℕ) (c r : Bool),
      createNode fuel ctx v m c r PState.empty = none) := by
  refine ⟨?_, ?_, ?_⟩
  · intro fuel ctx nodeId m c r st grp st' hnp h
    exact (createNode_fresh hnp h).2
  · intro ctx rank hrank fuel nodeId hlt m c r st
    exact createNode_total_of_rank ctx rank hrank fuel nodeId hlt m c r st
  · intro ctx C hC v hv fuel m c r
    refine (createNode_cycle_aux ctx C hC fuel).1 v hv m c r PState.empty ?_
    intro u hu m' hmem
    exact absurd hmem (List.not_mem_nil _)

/-- C10, witness: (a) the one-node graph's fresh build caches its entry at
the head of the final state; (b) fuel `2` already suffices for the
two-node graph `root → leaf` under the rank `root ↦ 1, leaf ↦ 0`; (c) the
self-referencing node `cyc` exhausts the depth budget `6` (and any
other). -/
theorem createNode_postorder_cache_and_termination_witness :
    (∃ rest,
      (⟨[("leaf", none)],
        [(("leaf", none), .group 0 {} none false false [])], 1⟩ :
          PState).nodes =
        (("leaf", (none : Option ℕ)),
          GObj.group 0 {} none false false []) :: rest) ∧
    createNode 2
      ⟨[("root", .mk "" none none none .undef .undef
          (some (.mk [] (some ["leaf"]) none)) none),
        ("leaf", .mk "" none none none .undef .undef none none)], []⟩
      "root" none false false PState.empty ≠ none ∧
    createNode 6
      ⟨[("cyc", .mk "" none none none .undef .undef
          (some (.mk [] (some ["cyc"]) none)) none)], []⟩
      "cyc" none false false PState.empty = none := by
  refine ⟨?_, ?_, ?_⟩
  · exact (createNode_postorder_cache_and_termination.1 2
      ⟨[("leaf", .mk "" none none none .undef .undef none none)], []⟩
      "leaf" none false false PState.empty _ _
      (List.not_mem_nil _) rfl).1
  · refine createNode_postorder_cache_and_termination.2.1
      ⟨[("root", .mk "" none none none .undef .undef
          (some (.mk [] (some ["leaf"]) none)) none),
        ("leaf", .mk "" none none none .undef .undef none none)], []⟩
      (fun s => if s = "root" then 1 else 0) ?_ 2 "root" (by decide)
      none false false PState.empty
    intro u v hv
    by_cases h1 : u = "root"
    · subst h1
      have he : edgeTargets
          (⟨[("root", .mk "" none none none .undef .undef
              (some (.mk [] (some ["leaf"]) none)) none),
            ("leaf", .mk "" none none none .undef .undef none none)], []⟩ :
            Ctx).graph "root" = ["leaf"] := rfl
      rw [he] at hv
      have hvl : v = "leaf" := List.mem_singleton.mp hv
      subst hvl
      decide
    · by_cases h2 : u = "leaf"
      · subst h2
        have he : edgeTargets
            (⟨[("root", .mk "" none none none .undef .undef
                (some (.mk [] (some ["leaf"]) none)) none),
              ("leaf", .mk "" none none none .undef .undef none none)], []⟩ :
              Ctx).graph "leaf" = [] := rfl
        rw [he] at hv
        exact absurd hv (List.not_mem_nil _)
      · have hl : lookupA
            (⟨[("root", .mk "" none none none .undef .undef
                (some (.mk [] (some ["leaf"]) none)) none),
              ("leaf", .mk "" none none none .undef .undef none none)], []⟩ :
              Ctx).graph u = none := by
          simp only [lookupA]
          rw [if_neg (fun hh => h1 hh.symm), if_neg (fun hh => h2 hh.symm)]
        have he : edgeTargets
            (⟨[("root", .mk "" none none none .undef .undef
                (some (.mk [] (some ["leaf"]) none)) none),
              ("leaf", .mk "" none none none .undef .undef none none)], []⟩ :
              Ctx).graph u = [] := by
          simp only [edgeTargets]
          rw [hl]
        rw [he] at hv
        exact absurd hv (List.not_mem_nil _)
  · refine createNode_postorder_cache_and_termination.2.2
      ⟨[("cyc", .mk "" none none none .undef .undef
          (some (.mk [] (some ["cyc"]) none)) none)], []⟩
      ["cyc"] ?_ "cyc" (List.mem_singleton.mpr rfl) 6 none false false
    intro v hv
    rw [List.mem_singleton] at hv
    subst hv
    refine ⟨"cyc", ?_, List.mem_singleton.mpr rfl⟩
    have he : edgeTargets
        (⟨[("cyc", .mk "" none none none .undef .undef
            (some (.mk [] (some ["cyc"]) none)) none)], []⟩ :
          Ctx).graph "cyc" = ["cyc"] := rfl
    rw [he]
    exact List.mem_singleton.mpr rfl
